import Mathlib

/-!
Verification development for the tracked-change mutation engine and change
extractor of the contract-redlining repository.

The markup tree is the DOM document produced by parsing `word/document.xml`
(respectively `word/comments.xml`): elements carry a tag, an attribute list
and an ordered child list; the document itself is the forest of the root's
children (normally a single root element).  DOM operations used by the
source are embedded as pure functions:

* `Document.getElementsByTagName` / `Element.getElementsByTagName` become
  pre-order collections over the forest (including the roots) respectively
  over the strict descendants of one element;
* the mutation handlers of `src/app/api/redline/route.ts` become functions
  that rewrite the first matching node of the forest, since each handler
  mutates the first match of the live tag list and returns immediately;
* JavaScript string operations (`trim`, `parseInt`, `includes`) are embedded
  as structurally recursive functions so that concrete runs reduce.
-/

inductive XmlNode where
  | elem (tag : String) (attrs : List (String × String)) (children : List XmlNode)
  | text (s : String)
deriving Repr

/-- Attribute lookup on an attribute list; a DOM element holds each
attribute name at most once, the embedding reads the first binding. -/
def getAttr (attrs : List (String × String)) (name : String) : Option String :=
  (attrs.find? (fun p => p.1 == name)).map (fun p => p.2)

/-- The `getAttribute` call of the source: `null` becomes `none`. -/
def nodeAttr (n : XmlNode) (name : String) : Option String :=
  match n with
  | XmlNode.elem _ a _ => getAttr a name
  | XmlNode.text _ => none

/-- Embedding of JavaScript `String.prototype.trim` (whitespace taken as
space, tab, carriage return and newline). -/
def jsTrim (s : String) : String :=
  ⟨((s.data.dropWhile Char.isWhitespace).reverse.dropWhile Char.isWhitespace).reverse⟩

def listStarts : List Char → List Char → Bool
  | [], _ => true
  | _ :: _, [] => false
  | c :: cr, d :: dr => c == d && listStarts cr dr

def listHasSub (needle : List Char) : List Char → Bool
  | [] => listStarts needle []
  | c :: rest => listStarts needle (c :: rest) || listHasSub needle rest

/-- Embedding of JavaScript `String.prototype.includes`. -/
def hasSubstr (needle hay : String) : Bool :=
  listHasSub needle.data hay.data

def digitsVal : List Char → Nat → Nat
  | [], acc => acc
  | c :: rest, acc => if c.isDigit then digitsVal rest (acc * 10 + (c.toNat - 48)) else acc

def leadingDigitsVal : List Char → Option Nat
  | [] => none
  | c :: rest => if c.isDigit then some (digitsVal rest (c.toNat - 48)) else none

/-- Embedding of JavaScript `Number.parseInt(s, 10)`: skip leading
whitespace, optional sign, then the longest digit run; `NaN` is `none`. -/
def jsParseInt (s : String) : Option Int :=
  match s.data.dropWhile Char.isWhitespace with
  | '-' :: rest => (leadingDigitsVal rest).map (fun n => -(n : Int))
  | '+' :: rest => (leadingDigitsVal rest).map (fun n => (n : Int))
  | l => (leadingDigitsVal l).map (fun n => (n : Int))

/-- Pre-order collection of the elements with a given tag over a forest,
roots included: this is `Document.getElementsByTagName` when applied to the
document forest. -/
def forestElemsByTag (tag : String) : List XmlNode → List XmlNode
  | [] => []
  | XmlNode.text _ :: rest => forestElemsByTag tag rest
  | XmlNode.elem t a cs :: rest =>
      (if t == tag then [XmlNode.elem t a cs] else []) ++
        forestElemsByTag tag cs ++ forestElemsByTag tag rest

/-- Strict-descendant collection: `Element.getElementsByTagName`. -/
def elemsByTagIn (n : XmlNode) (tag : String) : List XmlNode :=
  match n with
  | XmlNode.elem _ _ cs => forestElemsByTag tag cs
  | XmlNode.text _ => []

def textContentF : List XmlNode → String
  | [] => ""
  | XmlNode.text s :: rest => s ++ textContentF rest
  | XmlNode.elem _ _ cs :: rest => textContentF cs ++ textContentF rest

/-- The DOM `textContent` of a node: all text leaves of its subtree in
document order. -/
def textContent (n : XmlNode) : String :=
  textContentF [n]

/-- Number of elements with a given tag in a forest. -/
def countTag (tag : String) : List XmlNode → Nat
  | [] => 0
  | XmlNode.text _ :: rest => countTag tag rest
  | XmlNode.elem t _ cs :: rest =>
      (if t == tag then 1 else 0) + countTag tag cs + countTag tag rest

/-- Does a forest contain (at any depth, roots included) an element with
this tag whose `w:id` attribute equals `cid`? -/
def hasMatch (tag cid : String) : List XmlNode → Bool
  | [] => false
  | XmlNode.text _ :: rest => hasMatch tag cid rest
  | XmlNode.elem t a cs :: rest =>
      (t == tag && getAttr a "w:id" == some cid) || hasMatch tag cid cs || hasMatch tag cid rest

/-- Generic worker shared by the four mutation handlers of
`src/app/api/redline/route.ts`: find the first element (in document order)
with the given tag whose `w:id` equals `cid` and replace it by
`repl attrs children`; `none` when no node matches.  Unwrapping is
`repl = fun _ cs => cs`, plain removal is `repl = fun _ _ => []`, and the
accept-with-proposal substitution is `repl = fun _ _ => [newNode]`
(`insertBefore` the new node then `removeChild` the target). -/
def editFirst (tag cid : String) (repl : List (String × String) → List XmlNode → List XmlNode) :
    List XmlNode → Option (List XmlNode)
  | [] => none
  | XmlNode.text s :: rest => (editFirst tag cid repl rest).map (fun r => XmlNode.text s :: r)
  | XmlNode.elem t a cs :: rest =>
      if t == tag && getAttr a "w:id" == some cid then
        some (repl a cs ++ rest)
      else
        match editFirst tag cid repl cs with
        | some cs2 => some (XmlNode.elem t a cs2 :: rest)
        | none => (editFirst tag cid repl rest).map (fun r => XmlNode.elem t a cs :: r)

/-- `handleAcceptInsertion`: unwrap the first matching `w:ins` node. -/
def handleAcceptInsertion (changeId : String) (doc : List XmlNode) : Except String (List XmlNode) :=
  match editFirst "w:ins" changeId (fun _ cs => cs) doc with
  | some doc2 => Except.ok doc2
  | none => Except.error ("Insertion with ID " ++ changeId ++ " not found.")

/-- `handleRejectInsertion`: remove the first matching `w:ins` node with
all of its children. -/
def handleRejectInsertion (changeId : String) (doc : List XmlNode) : Except String (List XmlNode) :=
  match editFirst "w:ins" changeId (fun _ _ => []) doc with
  | some doc2 => Except.ok doc2
  | none => Except.error ("Insertion with ID " ++ changeId ++ " not found.")

/-- `handleAcceptDeletion`: remove the first matching `w:del` node. -/
def handleAcceptDeletion (changeId : String) (doc : List XmlNode) : Except String (List XmlNode) :=
  match editFirst "w:del" changeId (fun _ _ => []) doc with
  | some doc2 => Except.ok doc2
  | none => Except.error ("Deletion with ID " ++ changeId ++ " not found.")

/-- `handleRejectDeletion`: unwrap the first matching `w:del` node. -/
def handleRejectDeletion (changeId : String) (doc : List XmlNode) : Except String (List XmlNode) :=
  match editFirst "w:del" changeId (fun _ cs => cs) doc with
  | some doc2 => Except.ok doc2
  | none => Except.error ("Deletion with ID " ++ changeId ++ " not found.")

inductive ChangeType where
  | insertion
  | deletion
deriving Repr, DecidableEq, BEq

inductive RedlineAction where
  | accept
  | reject
deriving Repr, DecidableEq, BEq

def tagOfType : ChangeType → String
  | ChangeType.insertion => "w:ins"
  | ChangeType.deletion => "w:del"

/-- `createInsertionNode` of the route handler: a fresh `w:ins` element
with the new id, the author, the timestamp, and one run holding one
whitespace-preserved text leaf with the proposed text. -/
def createInsertionNode (text author : String) (newId : Int) (now : String) : XmlNode :=
  XmlNode.elem "w:ins"
    [("w:id", toString newId), ("w:author", author), ("w:date", now)]
    [XmlNode.elem "w:r" []
      [XmlNode.elem "w:t" [("xml:space", "preserve")] [XmlNode.text text]]]

/-- One comparison step of the max-id scan: `NaN` (`none`) never wins the
`id > maxId` comparison, a parsed value wins exactly when greater. -/
def maxStep (m : Int) (o : Option Int) : Int :=
  match o with
  | none => m
  | some v => if v > m then v else m

/-- Scan-then-increment id computation of the proposal path: fold over all
`w:ins` then all `w:del` nodes, starting from 0; a missing or empty `w:id`
is read as "0", an id whose parse is `NaN` never wins the comparison. -/
def computeMaxId (doc : List XmlNode) : Int :=
  (forestElemsByTag "w:ins" doc ++ forestElemsByTag "w:del" doc).foldl
    (fun m n =>
      maxStep m (jsParseInt
        (if (nodeAttr n "w:id").getD "" == "" then "0" else (nodeAttr n "w:id").getD "")))
    0

/-- Author used by the proposal path: the trimmed reviewer name, or
"Anonymous Reviewer" when the name is missing or trims to the empty
string (`reviewerName?.trim() || "Anonymous Reviewer"`). -/
def authorOf (reviewerName : Option String) : String :=
  match reviewerName with
  | none => "Anonymous Reviewer"
  | some rn => if jsTrim rn == "" then "Anonymous Reviewer" else jsTrim rn

/-- Guard of the special proposal path:
`action === "accept" && proposedText && proposedText.trim() !== ""`. -/
def proposalCondition (action : RedlineAction) (proposedText : Option String) : Bool :=
  action == RedlineAction.accept &&
    (match proposedText with
     | some p => p != "" && jsTrim p != ""
     | none => false)

/-- Core of the `POST` handler of `src/app/api/redline/route.ts` after the
package has been opened and parsed: either the accept-with-proposal path
(compute the fresh id, build the new insertion node, substitute it for the
first node of the requested kind carrying the id) or the plain dispatch to
the four handlers.  An `Except.error` models the thrown error caught by the
surrounding try/catch, which answers with a structured JSON error and
writes no document bytes. -/
def applyRedline (doc : List XmlNode) (changeId : String) (changeType : ChangeType)
    (action : RedlineAction) (proposedText : Option String) (reviewerName : Option String)
    (now : String) : Except String (List XmlNode) :=
  if proposalCondition action proposedText then
    match editFirst (tagOfType changeType) changeId
        (fun _ _ => [createInsertionNode (proposedText.getD "") (authorOf reviewerName)
          (computeMaxId doc + 1) now]) doc with
    | some doc2 => Except.ok doc2
    | none => Except.error ("Node with ID " ++ changeId ++ " not found or has no parent.")
  else
    match action, changeType with
    | RedlineAction.accept, ChangeType.insertion => handleAcceptInsertion changeId doc
    | RedlineAction.accept, ChangeType.deletion => handleAcceptDeletion changeId doc
    | RedlineAction.reject, ChangeType.insertion => handleRejectInsertion changeId doc
    | RedlineAction.reject, ChangeType.deletion => handleRejectDeletion changeId doc

/-- The four-way dispatch of the non-proposal branch, as a named function
so theorems can state that a call reduces to the plain transition. -/
def plainDispatch (changeId : String) (doc : List XmlNode) :
    RedlineAction → ChangeType → Except String (List XmlNode)
  | RedlineAction.accept, ChangeType.insertion => handleAcceptInsertion changeId doc
  | RedlineAction.accept, ChangeType.deletion => handleAcceptDeletion changeId doc
  | RedlineAction.reject, ChangeType.insertion => handleRejectInsertion changeId doc
  | RedlineAction.reject, ChangeType.deletion => handleRejectDeletion changeId doc

structure DocxChange where
  id : String
  type : ChangeType
  author : String
  date : Option String
  text : String
  sectionId : String
  paragraphId : String
deriving Repr, DecidableEq

structure DocxComment where
  id : String
  author : String
  date : Option String
  text : String
  initials : Option String
  parentCommentId : Option String
deriving Repr, DecidableEq

def jsOrDefault (o : Option String) (dflt : String) : String :=
  match o with
  | some v => if v == "" then dflt else v
  | none => dflt

/-- Attribute read with a JavaScript `||` default: a missing attribute and
an attribute holding the empty string both fall back to the default. -/
def jsAttrOr (n : XmlNode) (name dflt : String) : String :=
  jsOrDefault (nodeAttr n name) dflt

def jsOrUndef (o : Option String) : Option String :=
  match o with
  | some v => if v == "" then none else some v
  | none => none

/-- Attribute read with a JavaScript `|| undefined` default: a missing
attribute and an empty attribute both become `none`. -/
def jsAttrOpt (n : XmlNode) (name : String) : Option String :=
  jsOrUndef (nodeAttr n name)

/-- Per-leaf whitespace rule of the extractor: a leaf whose `xml:space`
attribute is "preserve" keeps its raw text content, any other leaf is
trimmed. -/
def leafText (n : XmlNode) : String :=
  if nodeAttr n "xml:space" == some "preserve" then textContent n else jsTrim (textContent n)

def concatLeafTexts (l : List XmlNode) : String :=
  l.foldl (fun acc n => acc ++ leafText n) ""

/-- `getTextFromNode` of `src/lib/docx-parser.ts`: concatenate all `w:t`
descendants under the whitespace rule; if that gives the empty string, run
the fallback pass over the `w:t` descendants of each `w:r` descendant. -/
def getTextFromNode (n : XmlNode) : String :=
  let t1 := concatLeafTexts (elemsByTagIn n "w:t")
  if t1 != "" then t1
  else (elemsByTagIn n "w:r").foldl (fun acc r => acc ++ concatLeafTexts (elemsByTagIn r "w:t")) ""

/-- Text of a deletion node: same whitespace rule, read from the
`w:delText` descendants. -/
def delTextOf (n : XmlNode) : String :=
  concatLeafTexts (elemsByTagIn n "w:delText")

/-- Ancestor record used while walking up from a change node:
the ancestor element together with its index among the element children of
its own parent (`-1` when its parent is not an element, mirroring
`Array.from(parentElement?.children || []).indexOf(...)`). -/
structure Anc where
  node : XmlNode
  idx : Int
deriving Repr

def nodeTagIs (n : XmlNode) (t : String) : Bool :=
  match n with
  | XmlNode.elem tg _ _ => tg == t
  | XmlNode.text _ => false

/-- Pre-order collection of the elements with a given tag, each paired with
its ancestor chain (nearest ancestor first).  `pIsE` says whether the
current sibling list hangs from an element (as opposed to the document
itself), `k` is the element-child counter inside it. -/
def collectChain (tag : String) (chain : List Anc) (pIsE : Bool) (k : Int) :
    List XmlNode → List (XmlNode × List Anc)
  | [] => []
  | XmlNode.text _ :: rest => collectChain tag chain pIsE k rest
  | XmlNode.elem t a cs :: rest =>
      let myIdx : Int := if pIsE then k else -1
      (if t == tag then [(XmlNode.elem t a cs, chain)] else []) ++
        collectChain tag (⟨XmlNode.elem t a cs, myIdx⟩ :: chain) true 0 cs ++
        collectChain tag chain pIsE (k + 1) rest

def collectDoc (tag : String) (doc : List XmlNode) : List (XmlNode × List Anc) :=
  collectChain tag [] false 0 doc

/-- Does this element have a `w:pStyle` descendant whose `w:val` attribute
is a non-empty string containing "Heading"? -/
def hasHeadingDesc (n : XmlNode) : Bool :=
  (elemsByTagIn n "w:pStyle").any (fun p =>
    match nodeAttr p "w:val" with
    | some v => v != "" && hasSubstr "Heading" v
    | none => false)

/-- Upward walk of `findSectionInfo`: remember the first `w:p` ancestor,
stop at the first `w:sectPr` or `w:body` ancestor, or at the first ancestor
with a Heading-styled descendant; returns (paragraph ancestor, section
ancestor). -/
def sectionScan : List Anc → Option Anc → Option Anc × Option Anc
  | [], para => (para, none)
  | c :: rest, para =>
      let para2 := if nodeTagIs c.node "w:p" && para.isNone then some c else para
      if nodeTagIs c.node "w:sectPr" || nodeTagIs c.node "w:body" then (para2, some c)
      else if hasHeadingDesc c.node then (para2, some c)
      else sectionScan rest para2

/-- Text before the first dash: `s.split('-')[0]`. -/
def headBeforeDash (s : String) : String :=
  ⟨s.data.takeWhile (fun c => !(c == '-'))⟩

def paraIdOf (p : Option Anc) (rv : String) : String :=
  (p.map (fun c => "para-" ++ toString c.idx)).getD ("para-unknown-" ++ rv)

def sectIdOf (s : Option Anc) (paragraphId : String) : String :=
  (s.map (fun c => "section-" ++ toString c.idx)).getD (headBeforeDash paragraphId ++ "-section")

/-- `findSectionInfo` of the extractor, with the ancestor chain made
explicit and the one `Math.random()` draw of the fallback paragraph id
passed in as `rv`; returns (sectionId, paragraphId). -/
def findSectionInfo (chain : List Anc) (rv : String) : String × String :=
  (sectIdOf (sectionScan chain none).2 (paraIdOf (sectionScan chain none).1 rv),
   paraIdOf (sectionScan chain none).1 rv)

/-- Does `findSectionInfo` on this chain consume a `Math.random()` draw? -/
def usesRand (chain : List Anc) : Bool :=
  (sectionScan chain none).1.isNone

def changeOf (isIns : Bool) (i : Nat) (n : XmlNode) (text sectionId paragraphId : String) :
    DocxChange :=
  { id := jsAttrOr n "w:id" ((if isIns then "ins-" else "del-") ++ toString i)
    type := if isIns then ChangeType.insertion else ChangeType.deletion
    author := jsAttrOr n "w:author" "Unknown"
    date := nodeAttr n "w:date"
    text := text
    sectionId := sectionId
    paragraphId := paragraphId }

/-- One extraction loop of `extractChanges` (`isIns` selects the insertion
or the deletion loop): `i` is the index in the node list, `ctr` counts the
`Math.random()` draws already consumed from the stream `rand`; nodes whose
text is empty after the whitespace rule are dropped. -/
def extractLoop (isIns : Bool) (rand : Nat → String) :
    List (XmlNode × List Anc) → Nat → Nat → List DocxChange × Nat
  | [], _, ctr => ([], ctr)
  | (n, chain) :: rest, i, ctr =>
      let text := if isIns then getTextFromNode n else delTextOf n
      if text == "" then extractLoop isIns rand rest (i + 1) ctr
      else
        let sp := findSectionInfo chain (rand ctr)
        let ctr2 := if usesRand chain then ctr + 1 else ctr
        let res := extractLoop isIns rand rest (i + 1) ctr2
        (changeOf isIns i n text sp.1 sp.2 :: res.1, res.2)

/-- `extractChanges` on a successfully opened and parsed document: the
insertion loop runs first, the deletion loop continues with the same
random stream. -/
def extractChangesDoc (doc : List XmlNode) (rand : Nat → String) : List DocxChange :=
  let resIns := extractLoop true rand (collectDoc "w:ins" doc) 0 0
  let resDel := extractLoop false rand (collectDoc "w:del" doc) 0 resIns.2
  resIns.1 ++ resDel.1

/-- Outcome of the package-open step, abstracting the JSZip load, the
named-part lookup and the DOM parse of the source. -/
inductive OpenFailure where
  | badArchive
  | missingPart
  | malformedMarkup
deriving Repr, DecidableEq

inductive OpenResult where
  | fail (e : OpenFailure)
  | ok (doc : List XmlNode)

/-- `extractChanges` entry point: every failure of the open step is caught
by the surrounding try/catch of the source, logged to the console, and
turned into the empty list. -/
def extractChanges (r : OpenResult) (rand : Nat → String) : List DocxChange :=
  match r with
  | OpenResult.ok doc => extractChangesDoc doc rand
  | OpenResult.fail _ => []

def commentOf (i : Nat) (n : XmlNode) (text : String) : DocxComment :=
  { id := jsAttrOr n "w:id" ("comment-" ++ toString i)
    author := jsAttrOr n "w:author" "Unknown"
    date := nodeAttr n "w:date"
    text := text
    initials := jsAttrOpt n "w:initials"
    parentCommentId := jsAttrOpt n "w:parentId" }

def extractCommentsLoop : List XmlNode → Nat → List DocxComment
  | [], _ => []
  | n :: rest, i =>
      let text := getTextFromNode n
      if text == "" then extractCommentsLoop rest (i + 1)
      else commentOf i n text :: extractCommentsLoop rest (i + 1)

def extractCommentsDoc (doc : List XmlNode) : List DocxComment :=
  extractCommentsLoop (forestElemsByTag "w:comment" doc) 0

/-- `extractComments` entry point: a missing `word/comments.xml` part is a
documented empty result, and any other failure of the open step is caught,
logged, and also turned into the empty list. -/
def extractComments (r : OpenResult) : List DocxComment :=
  match r with
  | OpenResult.ok doc => extractCommentsDoc doc
  | OpenResult.fail _ => []

/-- Maximum of an integer list read head-first (0 for the empty list);
matches on its argument only, so concrete lists reduce. -/
def listMaxD (l : List Int) : Int :=
  match l with
  | [] => 0
  | c :: cs => cs.foldl max c

/-- Follows the words of the claim, for comparison with the code's
`computeMaxId`: the declared id of every insertion and deletion node
parsed as an integer, nodes with non-numeric or missing ids contributing
0. -/
def specC1Contribs (doc : List XmlNode) : List Int :=
  (forestElemsByTag "w:ins" doc ++ forestElemsByTag "w:del" doc).map
    (fun n => (jsParseInt ((nodeAttr n "w:id").getD "")).getD 0)

/-- Induction principle for forests that follows the nested recursion of
the embedding (head element's children and tail of the sibling list). -/
theorem forest_induction (P : List XmlNode → Prop)
    (h0 : P [])
    (ht : ∀ s rest, P rest → P (XmlNode.text s :: rest))
    (he : ∀ t a cs rest, P cs → P rest → P (XmlNode.elem t a cs :: rest)) :
    ∀ l, P l := by
  have key : ∀ n : Nat, ∀ l : List XmlNode, sizeOf l ≤ n → P l := by
    intro n
    induction n with
    | zero =>
      intro l hl
      cases l with
      | nil => exact h0
      | cons x rest => simp at hl
    | succ n ih =>
      intro l hl
      cases l with
      | nil => exact h0
      | cons x rest =>
        cases x with
        | text s =>
          apply ht
          apply ih
          simp at hl ⊢
          omega
        | elem t a cs =>
          apply he
          · apply ih; simp at hl ⊢; omega
          · apply ih; simp at hl ⊢; omega
  intro l
  exact key (sizeOf l) l (le_refl _)

theorem forestElemsByTag_append (tag : String) (l1 l2 : List XmlNode) :
    forestElemsByTag tag (l1 ++ l2) = forestElemsByTag tag l1 ++ forestElemsByTag tag l2 := by
  induction l1 with
  | nil => simp [forestElemsByTag]
  | cons n rest ih =>
    cases n with
    | text s => simp [forestElemsByTag, ih]
    | elem t a cs => simp [forestElemsByTag, ih]

theorem hasMatch_append (tag cid : String) (l1 l2 : List XmlNode) :
    hasMatch tag cid (l1 ++ l2) = (hasMatch tag cid l1 || hasMatch tag cid l2) := by
  induction l1 with
  | nil => simp [hasMatch]
  | cons n rest ih =>
    cases n with
    | text s => simp [hasMatch, ih]
    | elem t a cs => simp [hasMatch, ih, Bool.or_assoc]

theorem countTag_eq_length (tag : String) (l : List XmlNode) :
    countTag tag l = (forestElemsByTag tag l).length := by
  induction l using forest_induction with
  | h0 => simp [countTag, forestElemsByTag]
  | ht s rest ih => simp [countTag, forestElemsByTag, ih]
  | he t a cs rest ih1 ih2 =>
    by_cases h : t == tag
    · simp [countTag, forestElemsByTag, h, ih1, ih2]
      omega
    · simp [countTag, forestElemsByTag, h, ih1, ih2]

/-- One-hole context over a forest: the hole sits in a sibling list, at any
depth.  Filling the hole with a list of nodes leaves every other node of
the forest syntactically untouched. -/
inductive Ctx where
  | hole (pre post : List XmlNode)
  | node (pre : List XmlNode) (tag : String) (attrs : List (String × String)) (c : Ctx)
      (post : List XmlNode)

def Ctx.fill : Ctx → List XmlNode → List XmlNode
  | Ctx.hole pre post, r => pre ++ r ++ post
  | Ctx.node pre t a c post, r => pre ++ XmlNode.elem t a (Ctx.fill c r) :: post

/-- The hole is the first match in document order: nothing before it on any
sibling list matches, and no element on the spine above it matches. -/
def Ctx.okBefore (tag cid : String) : Ctx → Bool
  | Ctx.hole pre _ => !hasMatch tag cid pre
  | Ctx.node pre t a c _ =>
      !hasMatch tag cid pre && !(t == tag && getAttr a "w:id" == some cid) &&
        Ctx.okBefore tag cid c

def Ctx.consNode (n : XmlNode) : Ctx → Ctx
  | Ctx.hole pre post => Ctx.hole (n :: pre) post
  | Ctx.node pre t a c post => Ctx.node (n :: pre) t a c post

theorem fill_consNode (n : XmlNode) (C : Ctx) (r : List XmlNode) :
    (C.consNode n).fill r = n :: C.fill r := by
  cases C <;> simp [Ctx.consNode, Ctx.fill]

theorem okBefore_consNode (tag cid : String) (n : XmlNode) (C : Ctx) :
    (C.consNode n).okBefore tag cid = (!hasMatch tag cid [n] && C.okBefore tag cid) := by
  cases C with
  | hole pre post =>
    cases n with
    | text s => simp [Ctx.consNode, Ctx.okBefore, hasMatch]
    | elem t a cs => simp [Ctx.consNode, Ctx.okBefore, hasMatch, Bool.and_assoc]
  | node pre t0 a0 c post =>
    cases n with
    | text s => simp [Ctx.consNode, Ctx.okBefore, hasMatch]
    | elem t a cs => simp [Ctx.consNode, Ctx.okBefore, hasMatch, Bool.and_assoc]

theorem editFirst_none_iff (tag cid : String)
    (repl : List (String × String) → List XmlNode → List XmlNode) (l : List XmlNode) :
    editFirst tag cid repl l = none ↔ hasMatch tag cid l = false := by
  induction l using forest_induction with
  | h0 => simp [editFirst, hasMatch]
  | ht s rest ih => simp [editFirst, hasMatch, ih]
  | he t a cs rest ih1 ih2 =>
    by_cases h : (t == tag && getAttr a "w:id" == some cid) = true
    · simp [editFirst, hasMatch, h]
    · simp only [editFirst, hasMatch, h, if_false, Bool.false_or]
      cases hcs : editFirst tag cid repl cs with
      | some cs2 =>
        have : hasMatch tag cid cs = true := by
          rcases hm : hasMatch tag cid cs with _ | _
          · rw [← ih1] at hm; rw [hm] at hcs; cases hcs
          · rfl
        simp [hcs, this, h]
      | none =>
        have h1 : hasMatch tag cid cs = false := ih1.mp hcs
        simp [hcs, h1, ih2, h]

theorem editFirst_skip (tag cid : String)
    (repl : List (String × String) → List XmlNode → List XmlNode) (pre G : List XmlNode) :
    hasMatch tag cid pre = false →
    editFirst tag cid repl (pre ++ G) = (editFirst tag cid repl G).map (fun r => pre ++ r) := by
  induction pre using forest_induction with
  | h0 =>
    intro _
    cases hG : editFirst tag cid repl G <;> simp [hG]
  | ht s rest ih =>
    intro h
    simp only [hasMatch] at h
    rw [List.cons_append]
    simp only [editFirst, ih h]
    cases hG : editFirst tag cid repl G <;> simp [hG]
  | he t a cs rest ih1 ih2 =>
    intro h
    simp only [hasMatch, Bool.or_eq_false_iff] at h
    obtain ⟨⟨h1, h2⟩, h3⟩ := h
    rw [List.cons_append]
    simp only [editFirst, h1, if_false]
    rw [(editFirst_none_iff tag cid repl cs).mpr h2]
    simp only [ih2 h3]
    cases hG : editFirst tag cid repl G <;> simp [hG]

theorem editFirst_fill (tag cid : String)
    (repl : List (String × String) → List XmlNode → List XmlNode) (C : Ctx)
    (a : List (String × String)) (cs : List XmlNode)
    (ha : getAttr a "w:id" = some cid) :
    C.okBefore tag cid = true →
    editFirst tag cid repl (C.fill [XmlNode.elem tag a cs]) = some (C.fill (repl a cs)) := by
  induction C with
  | hole pre post =>
    intro hok
    simp only [Ctx.okBefore, Bool.not_eq_true'] at hok
    simp only [Ctx.fill, List.append_assoc, List.singleton_append]
    rw [editFirst_skip tag cid repl pre _ hok]
    simp [editFirst, ha]
  | node pre t a0 c post ih =>
    intro hok
    simp only [Ctx.okBefore, Bool.and_eq_true, Bool.not_eq_true'] at hok
    obtain ⟨⟨h1, h2⟩, h3⟩ := hok
    simp only [Ctx.fill]
    rw [show pre ++ XmlNode.elem t a0 (c.fill [XmlNode.elem tag a cs]) :: post =
          pre ++ (XmlNode.elem t a0 (c.fill [XmlNode.elem tag a cs]) :: post) from rfl]
    rw [editFirst_skip tag cid repl pre _ h1]
    simp only [editFirst, h2, if_false, ih h3]
    simp

theorem editFirst_some_decomp (tag cid : String)
    (repl : List (String × String) → List XmlNode → List XmlNode) (F : List XmlNode) :
    ∀ F', editFirst tag cid repl F = some F' →
    ∃ (C : Ctx) (a : List (String × String)) (cs : List XmlNode),
      F = C.fill [XmlNode.elem tag a cs] ∧ getAttr a "w:id" = some cid ∧
      C.okBefore tag cid = true ∧ F' = C.fill (repl a cs) := by
  induction F using forest_induction with
  | h0 => intro F' h; simp [editFirst] at h
  | ht s rest ih =>
    intro F' h
    simp only [editFirst] at h
    cases hr : editFirst tag cid repl rest with
    | none => rw [hr] at h; cases h
    | some r =>
      rw [hr] at h
      simp only [Option.map_some'] at h
      obtain ⟨C, a, cs, hF, ha, hok, hF'⟩ := ih r hr
      refine ⟨C.consNode (XmlNode.text s), a, cs, ?_, ha, ?_, ?_⟩
      · rw [fill_consNode, hF]
      · rw [okBefore_consNode]; simp [hasMatch, hok]
      · rw [fill_consNode, ← hF']
        exact (Option.some_inj.mp h).symm
  | he t a0 cs0 rest ih1 ih2 =>
    intro F' h
    simp only [editFirst] at h
    by_cases hc : (t == tag && getAttr a0 "w:id" == some cid) = true
    · rw [if_pos hc] at h
      simp only [Option.some.injEq] at h
      simp only [Bool.and_eq_true, beq_iff_eq] at hc
      obtain ⟨ht0, ha0⟩ := hc
      subst ht0
      refine ⟨Ctx.hole [] rest, a0, cs0, ?_, ha0, ?_, ?_⟩
      · simp [Ctx.fill]
      · simp [Ctx.okBefore, hasMatch]
      · simp [Ctx.fill, ← h]
    · rw [if_neg hc] at h
      cases hcs : editFirst tag cid repl cs0 with
      | some cs2 =>
        rw [hcs] at h
        simp only [Option.some.injEq] at h
        obtain ⟨C0, a, cs, hF, ha, hok, hF'⟩ := ih1 cs2 hcs
        refine ⟨Ctx.node [] t a0 C0 rest, a, cs, ?_, ha, ?_, ?_⟩
        · simp [Ctx.fill, hF]
        · have hcf : (t == tag && getAttr a0 "w:id" == some cid) = false :=
            Bool.eq_false_iff.mpr fun hx => hc hx
          simp [Ctx.okBefore, hasMatch, hcf, hok]
        · simp [Ctx.fill, ← hF', ← h]
      | none =>
        rw [hcs] at h
        cases hr : editFirst tag cid repl rest with
        | none => rw [hr] at h; cases h
        | some r =>
          rw [hr] at h
          simp only [Option.map_some'] at h
          obtain ⟨C0, a, cs, hF, ha, hok, hF'⟩ := ih2 r hr
          refine ⟨C0.consNode (XmlNode.elem t a0 cs0), a, cs, ?_, ha, ?_, ?_⟩
          · rw [fill_consNode, hF]
          · have hcf : (t == tag && getAttr a0 "w:id" == some cid) = false :=
              Bool.eq_false_iff.mpr fun hx => hc hx
            have h2 : hasMatch tag cid cs0 = false := (editFirst_none_iff tag cid repl cs0).mp hcs
            rw [okBefore_consNode]
            simp [hasMatch, hcf, h2, hok]
          · rw [fill_consNode, ← hF']
            exact (Option.some_inj.mp h).symm

/-- Declared `w:id` attributes of the elements with a given tag, in
document order. -/
def idsByTag (tag : String) (l : List XmlNode) : List (Option String) :=
  (forestElemsByTag tag l).map (fun n => nodeAttr n "w:id")

/-- Ids of the tag-matching elements that sit strictly before the hole in
document order (spine elements included). -/
def Ctx.idsA (tag : String) : Ctx → List (Option String)
  | Ctx.hole pre _ => idsByTag tag pre
  | Ctx.node pre t a c _ =>
      idsByTag tag pre ++ (if t == tag then [getAttr a "w:id"] else []) ++ Ctx.idsA tag c

/-- Ids of the tag-matching elements that sit after the hole. -/
def Ctx.idsB (tag : String) : Ctx → List (Option String)
  | Ctx.hole _ post => idsByTag tag post
  | Ctx.node _ _ _ c post => Ctx.idsB tag c ++ idsByTag tag post

theorem idsByTag_append (tag : String) (l1 l2 : List XmlNode) :
    idsByTag tag (l1 ++ l2) = idsByTag tag l1 ++ idsByTag tag l2 := by
  simp [idsByTag, forestElemsByTag_append]

/-- Filling a context only contributes the ids of the filling nodes
between the fixed before and after id lists of the context. -/
theorem idsByTag_fill (tag : String) (C : Ctx) (R : List XmlNode) :
    idsByTag tag (C.fill R) = C.idsA tag ++ idsByTag tag R ++ C.idsB tag := by
  induction C with
  | hole pre post =>
    simp [Ctx.fill, Ctx.idsA, Ctx.idsB, idsByTag_append]
  | node pre t a c post ih =>
    simp only [Ctx.fill, Ctx.idsA, Ctx.idsB]
    rw [idsByTag_append]
    have hcons : idsByTag tag (XmlNode.elem t a (c.fill R) :: post) =
        (if t == tag then [getAttr a "w:id"] else []) ++ idsByTag tag (c.fill R) ++
          idsByTag tag post := by
      by_cases h : t == tag <;>
        simp [idsByTag, forestElemsByTag, forestElemsByTag_append, h, nodeAttr]
    rw [hcons, ih]
    simp [List.append_assoc]

theorem collectChain_map_fst (tag : String) (l : List XmlNode) :
    ∀ chain pIsE k, (collectChain tag chain pIsE k l).map Prod.fst = forestElemsByTag tag l := by
  induction l using forest_induction with
  | h0 => intro chain pIsE k; simp [collectChain, forestElemsByTag]
  | ht s rest ih => intro chain pIsE k; simp [collectChain, forestElemsByTag, ih]
  | he t a cs rest ih1 ih2 =>
    intro chain pIsE k
    by_cases h : t == tag <;> simp [collectChain, forestElemsByTag, h, ih1, ih2]

theorem collectDoc_map_fst (tag : String) (doc : List XmlNode) :
    (collectDoc tag doc).map Prod.fst = forestElemsByTag tag doc :=
  collectChain_map_fst tag doc [] false 0

/-- Every change emitted by one extraction loop comes from a node of the
walked list, with its text computed by the loop's whitespace rule. -/
theorem extractLoop_mem (isIns : Bool) (rand : Nat → String) (l : List (XmlNode × List Anc)) :
    ∀ i ctr c, c ∈ (extractLoop isIns rand l i ctr).1 →
    ∃ (j : Nat) (n : XmlNode) (chain : List Anc) (sec par : String),
      (n, chain) ∈ l ∧
      c = changeOf isIns j n (if isIns then getTextFromNode n else delTextOf n) sec par := by
  induction l with
  | nil => intro i ctr c hc; simp [extractLoop] at hc
  | cons p rest ih =>
    intro i ctr c hc
    obtain ⟨n, chain⟩ := p
    simp only [extractLoop] at hc
    by_cases htxt : ((if isIns then getTextFromNode n else delTextOf n) == "") = true
    · rw [if_pos htxt] at hc
      obtain ⟨j, n2, chain2, sec, par, hm, he2⟩ := ih (i + 1) ctr c hc
      exact ⟨j, n2, chain2, sec, par, List.mem_cons_of_mem _ hm, he2⟩
    · rw [if_neg htxt] at hc
      rcases List.mem_cons.mp hc with hhead | htail
      · exact ⟨i, n, chain,
          (findSectionInfo chain (rand ctr)).1, (findSectionInfo chain (rand ctr)).2,
          List.mem_cons_self _ _, hhead⟩
      · obtain ⟨j, n2, chain2, sec, par, hm, he2⟩ :=
          ih (i + 1) (if usesRand chain then ctr + 1 else ctr) c htail
        exact ⟨j, n2, chain2, sec, par, List.mem_cons_of_mem _ hm, he2⟩

theorem jsAttrOr_of_present (n : XmlNode) (name dflt v : String)
    (h : nodeAttr n name = some v) (hne : v ≠ "") : jsAttrOr n name dflt = v := by
  simp [jsAttrOr, jsOrDefault, h, hne]

theorem handleAcceptInsertion_ok (cid : String) (doc doc1 : List XmlNode)
    (h : handleAcceptInsertion cid doc = Except.ok doc1) :
    editFirst "w:ins" cid (fun _ cs => cs) doc = some doc1 := by
  rcases he : editFirst "w:ins" cid (fun _ cs => cs) doc with _ | d
  · simp [handleAcceptInsertion, he] at h
  · simp only [handleAcceptInsertion, he, Except.ok.injEq] at h
    rw [h]

theorem handleRejectInsertion_ok (cid : String) (doc doc1 : List XmlNode)
    (h : handleRejectInsertion cid doc = Except.ok doc1) :
    editFirst "w:ins" cid (fun _ _ => []) doc = some doc1 := by
  rcases he : editFirst "w:ins" cid (fun _ _ => ([] : List XmlNode)) doc with _ | d
  · simp [handleRejectInsertion, he] at h
  · simp only [handleRejectInsertion, he, Except.ok.injEq] at h
    rw [h]

theorem handleAcceptDeletion_ok (cid : String) (doc doc1 : List XmlNode)
    (h : handleAcceptDeletion cid doc = Except.ok doc1) :
    editFirst "w:del" cid (fun _ _ => []) doc = some doc1 := by
  rcases he : editFirst "w:del" cid (fun _ _ => ([] : List XmlNode)) doc with _ | d
  · simp [handleAcceptDeletion, he] at h
  · simp only [handleAcceptDeletion, he, Except.ok.injEq] at h
    rw [h]

theorem handleRejectDeletion_ok (cid : String) (doc doc1 : List XmlNode)
    (h : handleRejectDeletion cid doc = Except.ok doc1) :
    editFirst "w:del" cid (fun _ cs => cs) doc = some doc1 := by
  rcases he : editFirst "w:del" cid (fun _ cs => cs) doc with _ | d
  · simp [handleRejectDeletion, he] at h
  · simp only [handleRejectDeletion, he, Except.ok.injEq] at h
    rw [h]

theorem handleAcceptInsertion_of_edit (cid : String) (doc d : List XmlNode)
    (h : editFirst "w:ins" cid (fun _ cs => cs) doc = some d) :
    handleAcceptInsertion cid doc = Except.ok d := by
  unfold handleAcceptInsertion
  rw [h]

theorem handleRejectInsertion_of_edit (cid : String) (doc d : List XmlNode)
    (h : editFirst "w:ins" cid (fun _ _ => []) doc = some d) :
    handleRejectInsertion cid doc = Except.ok d := by
  unfold handleRejectInsertion
  rw [h]

theorem handleAcceptDeletion_of_edit (cid : String) (doc d : List XmlNode)
    (h : editFirst "w:del" cid (fun _ _ => []) doc = some d) :
    handleAcceptDeletion cid doc = Except.ok d := by
  unfold handleAcceptDeletion
  rw [h]

theorem handleRejectDeletion_of_edit (cid : String) (doc d : List XmlNode)
    (h : editFirst "w:del" cid (fun _ cs => cs) doc = some d) :
    handleRejectDeletion cid doc = Except.ok d := by
  unfold handleRejectDeletion
  rw [h]

theorem applyRedline_proposal_of_edit (doc : List XmlNode) (changeId : String)
    (changeType : ChangeType) (action : RedlineAction) (proposedText reviewerName : Option String)
    (now : String) (d : List XmlNode)
    (hc : proposalCondition action proposedText = true)
    (h : editFirst (tagOfType changeType) changeId
        (fun _ _ => [createInsertionNode (proposedText.getD "") (authorOf reviewerName)
          (computeMaxId doc + 1) now]) doc = some d) :
    applyRedline doc changeId changeType action proposedText reviewerName now = Except.ok d := by
  unfold applyRedline
  rw [if_pos hc, h]

theorem applyRedline_plain (doc : List XmlNode) (changeId : String)
    (changeType : ChangeType) (action : RedlineAction) (proposedText reviewerName : Option String)
    (now : String) (hc : proposalCondition action proposedText = false) :
    applyRedline doc changeId changeType action proposedText reviewerName now =
      plainDispatch changeId doc action changeType := by
  unfold applyRedline plainDispatch
  rw [if_neg (by rw [hc]; exact Bool.false_ne_true)]

theorem applyRedline_proposal_ok_inv (doc : List XmlNode) (changeId : String)
    (changeType : ChangeType) (action : RedlineAction) (proposedText reviewerName : Option String)
    (now : String) (doc' : List XmlNode)
    (hc : proposalCondition action proposedText = true)
    (h : applyRedline doc changeId changeType action proposedText reviewerName now =
      Except.ok doc') :
    editFirst (tagOfType changeType) changeId
      (fun _ _ => [createInsertionNode (proposedText.getD "") (authorOf reviewerName)
        (computeMaxId doc + 1) now]) doc = some doc' := by
  unfold applyRedline at h
  rw [if_pos hc] at h
  rcases he : editFirst (tagOfType changeType) changeId
      (fun _ _ => [createInsertionNode (proposedText.getD "") (authorOf reviewerName)
        (computeMaxId doc + 1) now]) doc with _ | d
  · rw [he] at h
    simp at h
  · rw [he] at h
    simp only [Except.ok.injEq] at h
    rw [h]

/-- C2: a mutation call (any kind, any action) whose id is carried by no
node of the given kind fails with a thrown not-found error, which the
route's try/catch returns as a structured error: no document bytes are
produced and the submitted document is not rewritten. -/
theorem C2_not_found_fails (doc : List XmlNode) (changeId : String) (changeType : ChangeType)
    (action : RedlineAction) (proposedText reviewerName : Option String) (now : String)
    (h : hasMatch (tagOfType changeType) changeId doc = false) :
    ∃ msg, applyRedline doc changeId changeType action proposedText reviewerName now =
      Except.error msg := by
  unfold applyRedline
  by_cases hp : proposalCondition action proposedText = true
  · rw [if_pos hp]
    rw [(editFirst_none_iff _ _ _ doc).mpr h]
    exact ⟨_, rfl⟩
  · rw [if_neg hp]
    cases action <;> cases changeType <;> simp only [tagOfType] at h
    · unfold handleAcceptInsertion
      rw [(editFirst_none_iff _ _ _ doc).mpr h]
      exact ⟨_, rfl⟩
    · unfold handleAcceptDeletion
      rw [(editFirst_none_iff _ _ _ doc).mpr h]
      exact ⟨_, rfl⟩
    · unfold handleRejectInsertion
      rw [(editFirst_none_iff _ _ _ doc).mpr h]
      exact ⟨_, rfl⟩
    · unfold handleRejectDeletion
      rw [(editFirst_none_iff _ _ _ doc).mpr h]
      exact ⟨_, rfl⟩

theorem C2_witness :
    hasMatch (tagOfType ChangeType.insertion) "1"
      [XmlNode.elem "w:document" [] [XmlNode.elem "w:del" [("w:id","1")] []]] = false ∧
    ∃ msg, applyRedline [XmlNode.elem "w:document" [] [XmlNode.elem "w:del" [("w:id","1")] []]]
      "1" ChangeType.insertion RedlineAction.accept none none "d" = Except.error msg := by
  have h : hasMatch (tagOfType ChangeType.insertion) "1"
      [XmlNode.elem "w:document" [] [XmlNode.elem "w:del" [("w:id","1")] []]] = false := by
    simp [hasMatch, tagOfType, getAttr, List.find?]
  exact ⟨h, C2_not_found_fails _ "1" ChangeType.insertion RedlineAction.accept none none "d" h⟩

/-- C4: accepting an insertion node with children [A, B, C] (and
symmetrically rejecting a deletion node) unwraps it: the parent's child
sequence afterwards holds A, B, C in that order at the wrapper's original
position, the wrapper is gone, and nothing else changes. -/
theorem C4_unwrap_order (cid1 cid2 : String) (C1 C2 : Ctx)
    (a1 a2 : List (String × String)) (A B Cn A2 B2 Cn2 : XmlNode)
    (ha1 : getAttr a1 "w:id" = some cid1) (hok1 : C1.okBefore "w:ins" cid1 = true)
    (ha2 : getAttr a2 "w:id" = some cid2) (hok2 : C2.okBefore "w:del" cid2 = true) :
    handleAcceptInsertion cid1 (C1.fill [XmlNode.elem "w:ins" a1 [A, B, Cn]]) =
      Except.ok (C1.fill [A, B, Cn]) ∧
    handleRejectDeletion cid2 (C2.fill [XmlNode.elem "w:del" a2 [A2, B2, Cn2]]) =
      Except.ok (C2.fill [A2, B2, Cn2]) := by
  constructor
  · exact handleAcceptInsertion_of_edit cid1 _ _
      (editFirst_fill "w:ins" cid1 (fun _ cs => cs) C1 a1 [A, B, Cn] ha1 hok1)
  · exact handleRejectDeletion_of_edit cid2 _ _
      (editFirst_fill "w:del" cid2 (fun _ cs => cs) C2 a2 [A2, B2, Cn2] ha2 hok2)

theorem C4_witness :
    getAttr [("w:id","7")] "w:id" = some "7" ∧
    (Ctx.hole [XmlNode.text "p"] [XmlNode.text "q"]).okBefore "w:ins" "7" = true ∧
    getAttr [("w:id","8")] "w:id" = some "8" ∧
    (Ctx.hole [XmlNode.text "p"] [XmlNode.text "q"]).okBefore "w:del" "8" = true ∧
    (handleAcceptInsertion "7"
        ((Ctx.hole [XmlNode.text "p"] [XmlNode.text "q"]).fill
          [XmlNode.elem "w:ins" [("w:id","7")] [XmlNode.text "A", XmlNode.text "B", XmlNode.text "C"]]) =
      Except.ok ((Ctx.hole [XmlNode.text "p"] [XmlNode.text "q"]).fill
        [XmlNode.text "A", XmlNode.text "B", XmlNode.text "C"]) ∧
    handleRejectDeletion "8"
        ((Ctx.hole [XmlNode.text "p"] [XmlNode.text "q"]).fill
          [XmlNode.elem "w:del" [("w:id","8")] [XmlNode.text "D", XmlNode.text "E", XmlNode.text "F"]]) =
      Except.ok ((Ctx.hole [XmlNode.text "p"] [XmlNode.text "q"]).fill
        [XmlNode.text "D", XmlNode.text "E", XmlNode.text "F"])) := by
  have h1 : getAttr [("w:id","7")] "w:id" = some "7" := by simp [getAttr, List.find?]
  have h2 : (Ctx.hole [XmlNode.text "p"] [XmlNode.text "q"]).okBefore "w:ins" "7" = true := by
    simp [Ctx.okBefore, hasMatch]
  have h3 : getAttr [("w:id","8")] "w:id" = some "8" := by simp [getAttr, List.find?]
  have h4 : (Ctx.hole [XmlNode.text "p"] [XmlNode.text "q"]).okBefore "w:del" "8" = true := by
    simp [Ctx.okBefore, hasMatch]
  exact ⟨h1, h2, h3, h4,
    C4_unwrap_order "7" "8" _ _ _ _ _ _ _ _ _ _ h1 h2 h3 h4⟩

/-- C8: every successful mutation call touches exactly one node: the tree
decomposes into a one-hole context holding the first node (in document
order) of the requested kind that carries the id, with no earlier match
anywhere before the hole, and the output is the same context filled with
the operation's replacement — the node's own children for an unwrap
(accept-insertion / reject-deletion), nothing for a removal
(reject-insertion / accept-deletion), and the single fresh insertion node
for accept-with-proposal.  Every node outside the hole, of either kind
(including any other node carrying the same id), is syntactically
unchanged, and no neighbouring nodes are merged or normalised. -/
theorem C8_frame (doc doc' : List XmlNode) (cid : String) (ct : ChangeType)
    (act : RedlineAction) (pt rn : Option String) (now : String)
    (h : applyRedline doc cid ct act pt rn now = Except.ok doc') :
    ∃ (C : Ctx) (a : List (String × String)) (cs : List XmlNode),
      doc = C.fill [XmlNode.elem (tagOfType ct) a cs] ∧
      getAttr a "w:id" = some cid ∧
      C.okBefore (tagOfType ct) cid = true ∧
      doc' = C.fill
        (if proposalCondition act pt then
          [createInsertionNode (pt.getD "") (authorOf rn) (computeMaxId doc + 1) now]
        else match act, ct with
          | RedlineAction.accept, ChangeType.insertion => cs
          | RedlineAction.accept, ChangeType.deletion => []
          | RedlineAction.reject, ChangeType.insertion => []
          | RedlineAction.reject, ChangeType.deletion => cs) := by
  by_cases hp : proposalCondition act pt = true
  · obtain ⟨C, a, cs, hF, ha, hok, hF'⟩ :=
      editFirst_some_decomp (tagOfType ct) cid _ doc doc'
        (applyRedline_proposal_ok_inv doc cid ct act pt rn now doc' hp h)
    refine ⟨C, a, cs, hF, ha, hok, ?_⟩
    rw [if_pos hp]
    exact hF'
  · have hpf : proposalCondition act pt = false := Bool.eq_false_iff.mpr hp
    rw [applyRedline_plain doc cid ct act pt rn now hpf] at h
    cases act <;> cases ct <;> simp only [plainDispatch] at h
    · obtain ⟨C, a, cs, hF, ha, hok, hF'⟩ :=
        editFirst_some_decomp "w:ins" cid (fun _ cs => cs) doc doc'
          (handleAcceptInsertion_ok cid doc doc' h)
      exact ⟨C, a, cs, hF, ha, hok, by
        simp only [hpf, Bool.false_eq_true, if_false]; exact hF'⟩
    · obtain ⟨C, a, cs, hF, ha, hok, hF'⟩ :=
        editFirst_some_decomp "w:del" cid (fun _ _ => []) doc doc'
          (handleAcceptDeletion_ok cid doc doc' h)
      exact ⟨C, a, cs, hF, ha, hok, by
        simp only [hpf, Bool.false_eq_true, if_false]; exact hF'⟩
    · obtain ⟨C, a, cs, hF, ha, hok, hF'⟩ :=
        editFirst_some_decomp "w:ins" cid (fun _ _ => []) doc doc'
          (handleRejectInsertion_ok cid doc doc' h)
      exact ⟨C, a, cs, hF, ha, hok, by
        simp only [hpf, Bool.false_eq_true, if_false]; exact hF'⟩
    · obtain ⟨C, a, cs, hF, ha, hok, hF'⟩ :=
        editFirst_some_decomp "w:del" cid (fun _ cs => cs) doc doc'
          (handleRejectDeletion_ok cid doc doc' h)
      exact ⟨C, a, cs, hF, ha, hok, by
        simp only [hpf, Bool.false_eq_true, if_false]; exact hF'⟩

theorem C8_witness :
    applyRedline
      [XmlNode.elem "w:document" []
        [XmlNode.elem "w:ins" [("w:id","1")] [XmlNode.text "a"], XmlNode.text "k"]]
      "1" ChangeType.insertion RedlineAction.reject none none "d" =
      Except.ok [XmlNode.elem "w:document" [] [XmlNode.text "k"]] ∧
    ∃ (C : Ctx) (a : List (String × String)) (cs : List XmlNode),
      [XmlNode.elem "w:document" []
        [XmlNode.elem "w:ins" [("w:id","1")] [XmlNode.text "a"], XmlNode.text "k"]] =
        C.fill [XmlNode.elem (tagOfType ChangeType.insertion) a cs] ∧
      getAttr a "w:id" = some "1" ∧
      C.okBefore (tagOfType ChangeType.insertion) "1" = true ∧
      [XmlNode.elem "w:document" [] [XmlNode.text "k"]] = C.fill
        (if proposalCondition RedlineAction.reject none then
          [createInsertionNode ((none : Option String).getD "") (authorOf none)
            (computeMaxId
              [XmlNode.elem "w:document" []
                [XmlNode.elem "w:ins" [("w:id","1")] [XmlNode.text "a"], XmlNode.text "k"]] + 1)
            "d"]
        else match RedlineAction.reject, ChangeType.insertion with
          | RedlineAction.accept, ChangeType.insertion => cs
          | RedlineAction.accept, ChangeType.deletion => []
          | RedlineAction.reject, ChangeType.insertion => []
          | RedlineAction.reject, ChangeType.deletion => cs) := by
  have h : applyRedline
      [XmlNode.elem "w:document" []
        [XmlNode.elem "w:ins" [("w:id","1")] [XmlNode.text "a"], XmlNode.text "k"]]
      "1" ChangeType.insertion RedlineAction.reject none none "d" =
      Except.ok [XmlNode.elem "w:document" [] [XmlNode.text "k"]] := by
    rw [applyRedline_plain
      [XmlNode.elem "w:document" []
        [XmlNode.elem "w:ins" [("w:id","1")] [XmlNode.text "a"], XmlNode.text "k"]]
      "1" ChangeType.insertion RedlineAction.reject none none "d" (by decide)]
    simp only [plainDispatch]
    apply handleRejectInsertion_of_edit
    simp [editFirst, getAttr, List.find?]
  exact ⟨h, C8_frame _ _ "1" ChangeType.insertion RedlineAction.reject none none "d" h⟩

/-- C3: contrary to the claim, a failure of the package open step inside
either extraction entry point is not surfaced as an error: the try/catch
of the source logs it and returns the empty list, which is exactly the
output of a successfully opened document with no changes. -/
theorem C3_counterexample :
    extractChanges (OpenResult.fail OpenFailure.missingPart) (fun _ => "") =
      extractChanges (OpenResult.ok []) (fun _ => "") ∧
    extractChanges (OpenResult.fail OpenFailure.missingPart) (fun _ => "") = [] ∧
    extractComments (OpenResult.fail OpenFailure.badArchive) = [] := by
  refine ⟨?_, rfl, rfl⟩
  simp [extractChanges, extractChangesDoc, extractLoop, collectDoc, collectChain]

/-- C3 (amended): every failure of the package open step — unreadable
archive, missing part, unparseable markup — is swallowed by the extraction
entry points, which return the empty change list and the empty comment
list, indistinguishable from a change-free document. -/
theorem C3_amended (e : OpenFailure) (rand : Nat → String) :
    extractChanges (OpenResult.fail e) rand = [] ∧
    extractComments (OpenResult.fail e) = [] :=
  ⟨rfl, rfl⟩

theorem extractLoop_nonempty_length (isIns : Bool) (rand : Nat → String)
    (l : List (XmlNode × List Anc)) :
    ∀ i ctr,
      ((extractLoop isIns rand l i ctr).1.all (fun c => !(c.text == ""))) = true ∧
      (extractLoop isIns rand l i ctr).1.length =
        (l.filter (fun p =>
          !((if isIns then getTextFromNode p.1 else delTextOf p.1) == ""))).length := by
  induction l with
  | nil => intro i ctr; simp [extractLoop]
  | cons p rest ih =>
    intro i ctr
    obtain ⟨n, chain⟩ := p
    by_cases h : ((if isIns then getTextFromNode n else delTextOf n) == "") = true
    · simp only [extractLoop, h, if_true, List.filter_cons, Bool.not_true, Bool.false_eq_true,
        if_false]
      exact ih (i + 1) ctr
    · have hf : ((if isIns then getTextFromNode n else delTextOf n) == "") = false :=
        Bool.eq_false_iff.mpr h
      simp only [extractLoop, hf, Bool.false_eq_true, if_false, List.filter_cons, Bool.not_false,
        if_true]
      constructor
      · simp only [List.all_cons, changeOf, hf, Bool.not_false, Bool.true_and]
        exact (ih (i + 1) (if usesRand chain then ctr + 1 else ctr)).1
      · simp only [List.length_cons]
        rw [(ih (i + 1) (if usesRand chain then ctr + 1 else ctr)).2]

/-- C6: an insertion or deletion node whose nested text leaves concatenate
to the empty string under the whitespace rule is dropped: every extracted
change carries non-empty text, and the number of extracted changes equals
the number of insertion nodes with non-empty run text plus the number of
deletion nodes with non-empty deleted text. -/
theorem C6_empty_suppression (doc : List XmlNode) (rand : Nat → String) :
    ((extractChangesDoc doc rand).all (fun c => !(c.text == ""))) = true ∧
    (extractChangesDoc doc rand).length =
      ((forestElemsByTag "w:ins" doc).filter (fun n => !(getTextFromNode n == ""))).length +
      ((forestElemsByTag "w:del" doc).filter (fun n => !(delTextOf n == ""))).length := by
  have hIns := extractLoop_nonempty_length true rand (collectDoc "w:ins" doc) 0 0
  have hDel := extractLoop_nonempty_length false rand (collectDoc "w:del" doc) 0
    (extractLoop true rand (collectDoc "w:ins" doc) 0 0).2
  have hconv : ∀ (tag : String) (pred : XmlNode → Bool),
      ((collectDoc tag doc).filter (fun p => pred p.1)).length =
      ((forestElemsByTag tag doc).filter pred).length := by
    intro tag pred
    rw [← collectDoc_map_fst tag doc]
    induction collectDoc tag doc with
    | nil => simp
    | cons q qs ihq =>
      by_cases hq : pred q.1 = true
      · simp [List.filter_cons, hq, ihq]
      · simp [List.filter_cons, Bool.eq_false_iff.mpr hq, ihq]
  constructor
  · simp only [extractChangesDoc, List.all_append]
    rw [hIns.1, (extractLoop_nonempty_length false rand (collectDoc "w:del" doc) 0 _).1]
    rfl
  · simp only [extractChangesDoc, List.length_append]
    rw [hIns.2, hDel.2]
    simp only [eq_self_iff_true, if_true, Bool.false_eq_true, if_false]
    rw [← hconv "w:ins" (fun n => !(getTextFromNode n == "")),
        ← hconv "w:del" (fun n => !(delTextOf n == ""))]

theorem findSectionInfo_const (chain : List Anc) (h : usesRand chain = false) (rv rv' : String) :
    findSectionInfo chain rv = findSectionInfo chain rv' := by
  unfold usesRand at h
  rcases hp : (sectionScan chain none).1 with _ | c
  · rw [hp] at h
    simp at h
  · unfold findSectionInfo
    rw [hp]
    simp [paraIdOf]

theorem extractLoop_norand (isIns : Bool) (r1 r2 : Nat → String)
    (l : List (XmlNode × List Anc)) :
    (l.all (fun p => !(usesRand p.2))) = true →
    ∀ i ctr1 ctr2, (extractLoop isIns r1 l i ctr1).1 = (extractLoop isIns r2 l i ctr2).1 := by
  induction l with
  | nil => intro _ i c1 c2; simp [extractLoop]
  | cons p rest ih =>
    intro hall i c1 c2
    obtain ⟨n, chain⟩ := p
    simp only [List.all_cons, Bool.and_eq_true, Bool.not_eq_true'] at hall
    obtain ⟨hur, hrest⟩ := hall
    have hrest2 : (rest.all (fun p => !(usesRand p.2))) = true := by
      rw [List.all_eq_true] at hrest ⊢
      exact hrest
    by_cases h : ((if isIns then getTextFromNode n else delTextOf n) == "") = true
    · simp only [extractLoop, h, if_true]
      exact ih hrest2 (i + 1) c1 c2
    · have hf : ((if isIns then getTextFromNode n else delTextOf n) == "") = false :=
        Bool.eq_false_iff.mpr h
      simp only [extractLoop, hf, Bool.false_eq_true, if_false]
      rw [findSectionInfo_const chain hur (r1 c1) (r2 c2)]
      rw [ih hrest2 (i + 1) (if usesRand chain then c1 + 1 else c1)
        (if usesRand chain then c2 + 1 else c2)]

/-- C9: contrary to the claim, extraction is not deterministic: a change
node with no paragraph ancestor receives a `Math.random()`-derived
paragraph locator, so two runs over the same tree can produce different
Change lists. -/
theorem C9_counterexample :
    extractChangesDoc
      [XmlNode.elem "w:document" []
        [XmlNode.elem "w:ins" [("w:id","1")]
          [XmlNode.elem "w:r" []
            [XmlNode.elem "w:t" [("xml:space","preserve")] [XmlNode.text "a"]]]]]
      (fun _ => "x") ≠
    extractChangesDoc
      [XmlNode.elem "w:document" []
        [XmlNode.elem "w:ins" [("w:id","1")]
          [XmlNode.elem "w:r" []
            [XmlNode.elem "w:t" [("xml:space","preserve")] [XmlNode.text "a"]]]]]
      (fun _ => "y") := by
  have h1 : extractChangesDoc
      [XmlNode.elem "w:document" []
        [XmlNode.elem "w:ins" [("w:id","1")]
          [XmlNode.elem "w:r" []
            [XmlNode.elem "w:t" [("xml:space","preserve")] [XmlNode.text "a"]]]]]
      (fun _ => "x") =
      [{ id := "1", type := ChangeType.insertion, author := "Unknown", date := none,
         text := "a", sectionId := "para-section", paragraphId := "para-unknown-x" }] := by
    simp [extractChangesDoc, extractLoop, collectDoc, collectChain, forestElemsByTag,
      getTextFromNode, delTextOf, concatLeafTexts, leafText, textContent, textContentF,
      elemsByTagIn, nodeAttr, getAttr, List.find?, usesRand, sectionScan, findSectionInfo,
      paraIdOf, sectIdOf, hasHeadingDesc, nodeTagIs, headBeforeDash, changeOf, jsAttrOr,
      jsOrDefault, jsTrim]
  have h2 : extractChangesDoc
      [XmlNode.elem "w:document" []
        [XmlNode.elem "w:ins" [("w:id","1")]
          [XmlNode.elem "w:r" []
            [XmlNode.elem "w:t" [("xml:space","preserve")] [XmlNode.text "a"]]]]]
      (fun _ => "y") =
      [{ id := "1", type := ChangeType.insertion, author := "Unknown", date := none,
         text := "a", sectionId := "para-section", paragraphId := "para-unknown-y" }] := by
    simp [extractChangesDoc, extractLoop, collectDoc, collectChain, forestElemsByTag,
      getTextFromNode, delTextOf, concatLeafTexts, leafText, textContent, textContentF,
      elemsByTagIn, nodeAttr, getAttr, List.find?, usesRand, sectionScan, findSectionInfo,
      paraIdOf, sectIdOf, hasHeadingDesc, nodeTagIs, headBeforeDash, changeOf, jsAttrOr,
      jsOrDefault, jsTrim]
  rw [h1, h2]
  simp

/-- C9 (amended): extraction is a pure function of the tree and the random
source, and whenever every insertion and deletion node has a paragraph
ancestor (so the random fallback paragraph id is never used) the extracted
Change list — sectionId and paragraphId included — is independent of the
random source: two runs agree. -/
theorem C9_deterministic_amended (doc : List XmlNode) (r1 r2 : Nat → String)
    (h : ((collectDoc "w:ins" doc ++ collectDoc "w:del" doc).all
      (fun p => !(usesRand p.2))) = true) :
    extractChangesDoc doc r1 = extractChangesDoc doc r2 := by
  simp only [List.all_append, Bool.and_eq_true] at h
  obtain ⟨hi, hd⟩ := h
  simp only [extractChangesDoc]
  rw [extractLoop_norand true r1 r2 _ hi 0 0 0,
      extractLoop_norand false r1 r2 _ hd 0
        (extractLoop true r1 (collectDoc "w:ins" doc) 0 0).2
        (extractLoop true r2 (collectDoc "w:ins" doc) 0 0).2]

theorem C9_witness :
    ((collectDoc "w:ins"
        [XmlNode.elem "w:body" []
          [XmlNode.elem "w:p" []
            [XmlNode.elem "w:ins" [("w:id","1")]
              [XmlNode.elem "w:r" []
                [XmlNode.elem "w:t" [("xml:space","preserve")] [XmlNode.text "a"]]]]]] ++
      collectDoc "w:del"
        [XmlNode.elem "w:body" []
          [XmlNode.elem "w:p" []
            [XmlNode.elem "w:ins" [("w:id","1")]
              [XmlNode.elem "w:r" []
                [XmlNode.elem "w:t" [("xml:space","preserve")] [XmlNode.text "a"]]]]]]).all
      (fun p => !(usesRand p.2))) = true ∧
    extractChangesDoc
      [XmlNode.elem "w:body" []
        [XmlNode.elem "w:p" []
          [XmlNode.elem "w:ins" [("w:id","1")]
            [XmlNode.elem "w:r" []
              [XmlNode.elem "w:t" [("xml:space","preserve")] [XmlNode.text "a"]]]]]]
      (fun _ => "x") =
    extractChangesDoc
      [XmlNode.elem "w:body" []
        [XmlNode.elem "w:p" []
          [XmlNode.elem "w:ins" [("w:id","1")]
            [XmlNode.elem "w:r" []
              [XmlNode.elem "w:t" [("xml:space","preserve")] [XmlNode.text "a"]]]]]]
      (fun _ => "y") := by
  have h : ((collectDoc "w:ins"
        [XmlNode.elem "w:body" []
          [XmlNode.elem "w:p" []
            [XmlNode.elem "w:ins" [("w:id","1")]
              [XmlNode.elem "w:r" []
                [XmlNode.elem "w:t" [("xml:space","preserve")] [XmlNode.text "a"]]]]]] ++
      collectDoc "w:del"
        [XmlNode.elem "w:body" []
          [XmlNode.elem "w:p" []
            [XmlNode.elem "w:ins" [("w:id","1")]
              [XmlNode.elem "w:r" []
                [XmlNode.elem "w:t" [("xml:space","preserve")] [XmlNode.text "a"]]]]]]).all
      (fun p => !(usesRand p.2))) = true := by
    simp [collectDoc, collectChain, usesRand, sectionScan, hasHeadingDesc, nodeTagIs,
      elemsByTagIn, forestElemsByTag, nodeAttr, getAttr, List.find?]
  exact ⟨h, C9_deterministic_amended _ (fun _ => "x") (fun _ => "y") h⟩

theorem countTag_fill (tag : String) (C : Ctx) (R : List XmlNode) :
    countTag tag (C.fill R) = (C.idsA tag).length + countTag tag R + (C.idsB tag).length := by
  have h := congrArg List.length (idsByTag_fill tag C R)
  simp only [List.length_append, idsByTag, List.length_map] at h
  rw [countTag_eq_length, countTag_eq_length]
  omega

theorem countIns_after_edit (tag cid : String)
    (repl : List (String × String) → List XmlNode → List XmlNode)
    (hrepl : ∀ a cs, countTag "w:ins" (repl a cs) ≤ countTag "w:ins" [XmlNode.elem tag a cs])
    (doc doc' : List XmlNode) (h : editFirst tag cid repl doc = some doc') :
    countTag "w:ins" doc' ≤ countTag "w:ins" doc := by
  obtain ⟨C, a, cs, hF, ha, hok, hF'⟩ := editFirst_some_decomp tag cid repl doc doc' h
  rw [hF, hF', countTag_fill, countTag_fill]
  have := hrepl a cs
  omega

/-- C10: the proposal path runs only when the action is accept and the
proposed text is present with non-blank trim; a reject call (whatever the
proposed text) and any call with an absent or whitespace-only proposal
perform the plain four-way dispatch, ignoring the proposal, and on success
no new insertion node is created (the `w:ins` count never grows). -/
theorem C10_plain_path (doc : List XmlNode) (cid : String) (ct : ChangeType)
    (act : RedlineAction) (pt rn : Option String) (now : String)
    (h : act = RedlineAction.reject ∨ pt = none ∨ ∃ p, pt = some p ∧ jsTrim p = "") :
    (applyRedline doc cid ct act pt rn now = plainDispatch cid doc act ct) ∧
    (∀ doc', applyRedline doc cid ct act pt rn now = Except.ok doc' →
      countTag "w:ins" doc' ≤ countTag "w:ins" doc) := by
  have hcond : proposalCondition act pt = false := by
    rcases h with h | h | ⟨p, hp, hjt⟩
    · subst h; rfl
    · simp [proposalCondition, h]
    · simp [proposalCondition, hp, hjt]
  have hplain := applyRedline_plain doc cid ct act pt rn now hcond
  refine ⟨hplain, ?_⟩
  intro doc' hok
  rw [hplain] at hok
  have hunwrap : ∀ (a : List (String × String)) (cs : List XmlNode),
      countTag "w:ins" ((fun (_ : List (String × String)) (cs : List XmlNode) => cs) a cs) ≤
        countTag "w:ins" [XmlNode.elem "w:ins" a cs] := by
    intro a cs
    simp [countTag]
  have hremove : ∀ (tg : String) (a : List (String × String)) (cs : List XmlNode),
      countTag "w:ins" ((fun (_ : List (String × String)) (_ : List XmlNode) =>
        ([] : List XmlNode)) a cs) ≤ countTag "w:ins" [XmlNode.elem tg a cs] := by
    intro tg a cs
    simp [countTag]
  have hunwrapDel : ∀ (a : List (String × String)) (cs : List XmlNode),
      countTag "w:ins" ((fun (_ : List (String × String)) (cs : List XmlNode) => cs) a cs) ≤
        countTag "w:ins" [XmlNode.elem "w:del" a cs] := by
    intro a cs
    simp [countTag]
  cases act <;> cases ct
  · exact countIns_after_edit "w:ins" cid _ hunwrap doc doc'
      (handleAcceptInsertion_ok cid doc doc' hok)
  · exact countIns_after_edit "w:del" cid _ (hremove "w:del") doc doc'
      (handleAcceptDeletion_ok cid doc doc' hok)
  · exact countIns_after_edit "w:ins" cid _ (hremove "w:ins") doc doc'
      (handleRejectInsertion_ok cid doc doc' hok)
  · exact countIns_after_edit "w:del" cid _ hunwrapDel doc doc'
      (handleRejectDeletion_ok cid doc doc' hok)

theorem C10_witness :
    (RedlineAction.reject = RedlineAction.reject ∨ (some " " : Option String) = none ∨
      ∃ p, (some " " : Option String) = some p ∧ jsTrim p = "") ∧
    ((applyRedline [XmlNode.elem "w:document" [] [XmlNode.elem "w:ins" [("w:id","1")] [XmlNode.text "a"]]]
        "1" ChangeType.insertion RedlineAction.reject (some " ") none "d" =
      plainDispatch "1"
        [XmlNode.elem "w:document" [] [XmlNode.elem "w:ins" [("w:id","1")] [XmlNode.text "a"]]]
        RedlineAction.reject ChangeType.insertion) ∧
    (∀ doc', applyRedline [XmlNode.elem "w:document" [] [XmlNode.elem "w:ins" [("w:id","1")] [XmlNode.text "a"]]]
        "1" ChangeType.insertion RedlineAction.reject (some " ") none "d" = Except.ok doc' →
      countTag "w:ins" doc' ≤ countTag "w:ins"
        [XmlNode.elem "w:document" [] [XmlNode.elem "w:ins" [("w:id","1")] [XmlNode.text "a"]]])) := by
  have h : RedlineAction.reject = RedlineAction.reject ∨ (some " " : Option String) = none ∨
      ∃ p, (some " " : Option String) = some p ∧ jsTrim p = "" := Or.inl rfl
  exact ⟨h, C10_plain_path _ "1" ChangeType.insertion RedlineAction.reject (some " ") none "d" h⟩

theorem foldl_max_init_le (l : List Int) : ∀ m : Int, m ≤ l.foldl max m := by
  induction l with
  | nil => intro m; simp
  | cons x rest ih =>
    intro m
    simp only [List.foldl_cons]
    exact le_trans (le_max_left m x) (ih _)

theorem foldl_max_mem_le (l : List Int) : ∀ (m x : Int), x ∈ l → x ≤ l.foldl max m := by
  induction l with
  | nil => intro m x hx; cases hx
  | cons y rest ih =>
    intro m x hx
    rcases List.mem_cons.mp hx with h | h
    · subst h
      simp only [List.foldl_cons]
      exact le_trans (le_max_right m x) (foldl_max_init_le rest _)
    · simp only [List.foldl_cons]
      exact ih _ x h

/-- The code's scan (skip `NaN`, start at 0) computes exactly the fold of
`max` over the claim's contribution list, from 0. -/
theorem computeMaxId_eq_spec (doc : List XmlNode) :
    computeMaxId doc = (specC1Contribs doc).foldl max 0 := by
  unfold computeMaxId specC1Contribs
  have key : ∀ (l : List XmlNode) (m : Int), 0 ≤ m →
      l.foldl (fun m n =>
        maxStep m (jsParseInt
          (if (nodeAttr n "w:id").getD "" == "" then "0" else (nodeAttr n "w:id").getD ""))) m =
      (l.map (fun n => (jsParseInt ((nodeAttr n "w:id").getD "")).getD 0)).foldl max m := by
    intro l
    induction l with
    | nil => intro m _; simp
    | cons n rest ih =>
      intro m hm
      simp only [List.foldl_cons, List.map_cons]
      have hstep : maxStep m (jsParseInt
          (if (nodeAttr n "w:id").getD "" == "" then "0" else (nodeAttr n "w:id").getD "")) =
          max m ((jsParseInt ((nodeAttr n "w:id").getD "")).getD 0) := by
        by_cases hr : ((nodeAttr n "w:id").getD "" == "") = true
        · have hr2 : (nodeAttr n "w:id").getD "" = "" := beq_iff_eq.mp hr
          rw [if_pos hr, hr2]
          have h0 : jsParseInt "0" = some 0 := by decide
          have he : jsParseInt "" = none := by decide
          rw [h0, he]
          simp only [maxStep, Option.getD_none]
          rw [if_neg (not_lt.mpr hm), max_eq_left hm]
        · rw [if_neg hr]
          rcases hv : jsParseInt ((nodeAttr n "w:id").getD "") with _ | v
          · simp only [maxStep, Option.getD_none]
            rw [max_eq_left hm]
          · simp only [maxStep, Option.getD_some]
            rcases le_or_lt v m with hle | hlt
            · rw [if_neg (not_lt.mpr hle), max_eq_left hle]
            · rw [if_pos hlt, max_eq_right (le_of_lt hlt)]
      rw [hstep]
      exact ih _ (le_trans hm (le_max_left m _))
  exact key _ 0 le_rfl

/-- C1 (amended): on a successful accept-with-proposal call the new
insertion node carries id `toString (computeMaxId doc + 1)` (visible in
`createInsertionNode`), where `computeMaxId doc + 1` equals 1 plus the
fold of `max` from 0 over the claim's contribution list — that is, the
claim's formula with the maximum additionally clamped at 0 — and this new
id strictly exceeds every id of an existing insertion or deletion node
that parses as an integer. -/
theorem C1_proposal_id_amended (doc : List XmlNode) (changeId : String) (ct : ChangeType)
    (pt rn : Option String) (now : String) (doc' : List XmlNode)
    (hc : proposalCondition RedlineAction.accept pt = true)
    (h : applyRedline doc changeId ct RedlineAction.accept pt rn now = Except.ok doc') :
    (∃ (C : Ctx) (a : List (String × String)) (cs : List XmlNode),
      doc = C.fill [XmlNode.elem (tagOfType ct) a cs] ∧ getAttr a "w:id" = some changeId ∧
      doc' = C.fill [createInsertionNode (pt.getD "") (authorOf rn) (computeMaxId doc + 1) now]) ∧
    computeMaxId doc + 1 = 1 + (specC1Contribs doc).foldl max 0 ∧
    (∀ n ∈ forestElemsByTag "w:ins" doc ++ forestElemsByTag "w:del" doc,
      ∀ (s : String) (v : Int), nodeAttr n "w:id" = some s → jsParseInt s = some v →
        v < computeMaxId doc + 1) := by
  refine ⟨?_, ?_, ?_⟩
  · obtain ⟨C, a, cs, hF, ha, hok, hF'⟩ :=
      editFirst_some_decomp (tagOfType ct) changeId _ doc doc'
        (applyRedline_proposal_ok_inv doc changeId ct RedlineAction.accept pt rn now doc' hc h)
    exact ⟨C, a, cs, hF, ha, hF'⟩
  · rw [computeMaxId_eq_spec]
    omega
  · intro n hn s v hs hv
    have hc2 : (jsParseInt ((nodeAttr n "w:id").getD "")).getD 0 = v := by
      rw [hs, Option.getD_some, hv, Option.getD_some]
    have hmem : v ∈ specC1Contribs doc := by
      unfold specC1Contribs
      rw [← hc2]
      exact List.mem_map_of_mem _ hn
    have hle : v ≤ (specC1Contribs doc).foldl max 0 :=
      foldl_max_mem_le (specC1Contribs doc) 0 v hmem
    rw [computeMaxId_eq_spec]
    omega

/-- C1: contrary to the claim's formula, a tree whose only change node has
the (numeric) declared id "-5" yields a fresh id of 1 and not
`1 + max = -4`: the code's scan starts from 0, so negative parsed ids
never contribute to the maximum. -/
theorem C1_counterexample :
    applyRedline
      [XmlNode.elem "w:document" []
        [XmlNode.elem "w:del" [("w:id","-5")]
          [XmlNode.elem "w:r" []
            [XmlNode.elem "w:delText" [("xml:space","preserve")] [XmlNode.text "b"]]]]]
      "-5" ChangeType.deletion RedlineAction.accept (some "z") none "D" =
      Except.ok
        [XmlNode.elem "w:document" []
          [XmlNode.elem "w:ins" [("w:id","1"),("w:author","Anonymous Reviewer"),("w:date","D")]
            [XmlNode.elem "w:r" []
              [XmlNode.elem "w:t" [("xml:space","preserve")] [XmlNode.text "z"]]]]] ∧
    1 + listMaxD (specC1Contribs
      [XmlNode.elem "w:document" []
        [XmlNode.elem "w:del" [("w:id","-5")]
          [XmlNode.elem "w:r" []
            [XmlNode.elem "w:delText" [("xml:space","preserve")] [XmlNode.text "b"]]]]]) = -4 ∧
    ("1" : String) ≠ toString (1 + listMaxD (specC1Contribs
      [XmlNode.elem "w:document" []
        [XmlNode.elem "w:del" [("w:id","-5")]
          [XmlNode.elem "w:r" []
            [XmlNode.elem "w:delText" [("xml:space","preserve")] [XmlNode.text "b"]]]]])) := by
  have hspec : specC1Contribs
      [XmlNode.elem "w:document" []
        [XmlNode.elem "w:del" [("w:id","-5")]
          [XmlNode.elem "w:r" []
            [XmlNode.elem "w:delText" [("xml:space","preserve")] [XmlNode.text "b"]]]]] =
      [-5] := by
    simp [specC1Contribs, forestElemsByTag, nodeAttr, getAttr, List.find?, jsParseInt,
      leadingDigitsVal, digitsVal]
  have hmax : computeMaxId
      [XmlNode.elem "w:document" []
        [XmlNode.elem "w:del" [("w:id","-5")]
          [XmlNode.elem "w:r" []
            [XmlNode.elem "w:delText" [("xml:space","preserve")] [XmlNode.text "b"]]]]] = 0 := by
    simp [computeMaxId, maxStep, forestElemsByTag, nodeAttr, getAttr, List.find?, jsParseInt,
      leadingDigitsVal, digitsVal]
  refine ⟨?_, ?_, ?_⟩
  · apply applyRedline_proposal_of_edit
    · decide
    · rw [hmax]
      have hts : toString ((1 : Int)) = "1" := by decide
      simp [editFirst, getAttr, List.find?, createInsertionNode, authorOf, jsTrim, hts,
        tagOfType]
  · rw [hspec]
    decide
  · rw [hspec]
    decide

theorem C1_witness :
    proposalCondition RedlineAction.accept (some "new") = true ∧
    applyRedline
      [XmlNode.elem "w:document" []
        [XmlNode.elem "w:ins" [("w:id","3")]
          [XmlNode.elem "w:r" []
            [XmlNode.elem "w:t" [("xml:space","preserve")] [XmlNode.text "a"]]]]]
      "3" ChangeType.insertion RedlineAction.accept (some "new") (some "R") "D" =
      Except.ok
        [XmlNode.elem "w:document" []
          [XmlNode.elem "w:ins" [("w:id","4"),("w:author","R"),("w:date","D")]
            [XmlNode.elem "w:r" []
              [XmlNode.elem "w:t" [("xml:space","preserve")] [XmlNode.text "new"]]]]] ∧
    ((∃ (C : Ctx) (a : List (String × String)) (cs : List XmlNode),
      [XmlNode.elem "w:document" []
        [XmlNode.elem "w:ins" [("w:id","3")]
          [XmlNode.elem "w:r" []
            [XmlNode.elem "w:t" [("xml:space","preserve")] [XmlNode.text "a"]]]]] =
        C.fill [XmlNode.elem (tagOfType ChangeType.insertion) a cs] ∧
      getAttr a "w:id" = some "3" ∧
      [XmlNode.elem "w:document" []
        [XmlNode.elem "w:ins" [("w:id","4"),("w:author","R"),("w:date","D")]
          [XmlNode.elem "w:r" []
            [XmlNode.elem "w:t" [("xml:space","preserve")] [XmlNode.text "new"]]]]] =
        C.fill [createInsertionNode ((some "new" : Option String).getD "")
          (authorOf (some "R"))
          (computeMaxId [XmlNode.elem "w:document" []
            [XmlNode.elem "w:ins" [("w:id","3")]
              [XmlNode.elem "w:r" []
                [XmlNode.elem "w:t" [("xml:space","preserve")] [XmlNode.text "a"]]]]] + 1) "D"]) ∧
    computeMaxId [XmlNode.elem "w:document" []
        [XmlNode.elem "w:ins" [("w:id","3")]
          [XmlNode.elem "w:r" []
            [XmlNode.elem "w:t" [("xml:space","preserve")] [XmlNode.text "a"]]]]] + 1 =
      1 + (specC1Contribs [XmlNode.elem "w:document" []
        [XmlNode.elem "w:ins" [("w:id","3")]
          [XmlNode.elem "w:r" []
            [XmlNode.elem "w:t" [("xml:space","preserve")] [XmlNode.text "a"]]]]]).foldl max 0 ∧
    (∀ n ∈ forestElemsByTag "w:ins" [XmlNode.elem "w:document" []
        [XmlNode.elem "w:ins" [("w:id","3")]
          [XmlNode.elem "w:r" []
            [XmlNode.elem "w:t" [("xml:space","preserve")] [XmlNode.text "a"]]]]] ++
        forestElemsByTag "w:del" [XmlNode.elem "w:document" []
        [XmlNode.elem "w:ins" [("w:id","3")]
          [XmlNode.elem "w:r" []
            [XmlNode.elem "w:t" [("xml:space","preserve")] [XmlNode.text "a"]]]]],
      ∀ (s : String) (v : Int), nodeAttr n "w:id" = some s → jsParseInt s = some v →
        v < computeMaxId [XmlNode.elem "w:document" []
        [XmlNode.elem "w:ins" [("w:id","3")]
          [XmlNode.elem "w:r" []
            [XmlNode.elem "w:t" [("xml:space","preserve")] [XmlNode.text "a"]]]]] + 1)) := by
  have hc : proposalCondition RedlineAction.accept (some "new") = true := by decide
  have hmax : computeMaxId
      [XmlNode.elem "w:document" []
        [XmlNode.elem "w:ins" [("w:id","3")]
          [XmlNode.elem "w:r" []
            [XmlNode.elem "w:t" [("xml:space","preserve")] [XmlNode.text "a"]]]]] = 3 := by
    simp [computeMaxId, maxStep, forestElemsByTag, nodeAttr, getAttr, List.find?, jsParseInt,
      leadingDigitsVal, digitsVal]
  have h : applyRedline
      [XmlNode.elem "w:document" []
        [XmlNode.elem "w:ins" [("w:id","3")]
          [XmlNode.elem "w:r" []
            [XmlNode.elem "w:t" [("xml:space","preserve")] [XmlNode.text "a"]]]]]
      "3" ChangeType.insertion RedlineAction.accept (some "new") (some "R") "D" =
      Except.ok
        [XmlNode.elem "w:document" []
          [XmlNode.elem "w:ins" [("w:id","4"),("w:author","R"),("w:date","D")]
            [XmlNode.elem "w:r" []
              [XmlNode.elem "w:t" [("xml:space","preserve")] [XmlNode.text "new"]]]]] := by
    apply applyRedline_proposal_of_edit
    · exact hc
    · rw [hmax]
      have hts : toString ((4 : Int)) = "4" := by decide
      simp [editFirst, getAttr, List.find?, createInsertionNode, authorOf, jsTrim, hts,
        tagOfType]
  exact ⟨hc, h, C1_proposal_id_amended _ "3" ChangeType.insertion (some "new") (some "R") "D" _
    hc h⟩

/-- C5 (amended): a successful accept-with-proposal call replaces the
first node of the requested kind carrying the id by one brand-new `w:ins`
node placed at exactly the original node's position: it carries the fresh
id, author equal to the TRIMMED reviewer name (default "Anonymous
Reviewer" when the name is missing or trims to empty), the supplied
timestamp, and a single run holding one whitespace-preserved text leaf
with the proposed text verbatim.  (The claim said the author equals the
supplied name; the code stores the trimmed name.) -/
theorem C5_proposal_node_amended (doc : List XmlNode) (changeId : String) (ct : ChangeType)
    (p : String) (rn : Option String) (now : String) (doc' : List XmlNode)
    (hp : jsTrim p ≠ "")
    (h : applyRedline doc changeId ct RedlineAction.accept (some p) rn now = Except.ok doc') :
    ∃ (C : Ctx) (a : List (String × String)) (cs : List XmlNode),
      doc = C.fill [XmlNode.elem (tagOfType ct) a cs] ∧ getAttr a "w:id" = some changeId ∧
      C.okBefore (tagOfType ct) changeId = true ∧
      doc' = C.fill [XmlNode.elem "w:ins"
        [("w:id", toString (computeMaxId doc + 1)), ("w:author", authorOf rn), ("w:date", now)]
        [XmlNode.elem "w:r" []
          [XmlNode.elem "w:t" [("xml:space","preserve")] [XmlNode.text p]]]] := by
  have hpne : p ≠ "" := by
    intro he
    apply hp
    rw [he]
    decide
  have hc : proposalCondition RedlineAction.accept (some p) = true := by
    simp only [proposalCondition, Bool.and_eq_true, bne_iff_ne, ne_eq]
    exact ⟨rfl, hpne, hp⟩
  obtain ⟨C, a, cs, hF, ha, hok, hF'⟩ :=
    editFirst_some_decomp (tagOfType ct) changeId _ doc doc'
      (applyRedline_proposal_ok_inv doc changeId ct RedlineAction.accept (some p) rn now doc'
        hc h)
  refine ⟨C, a, cs, hF, ha, hok, ?_⟩
  simpa [createInsertionNode] using hF'

/-- C5: contrary to the claim, the author written into the new insertion
node is not the supplied reviewer name verbatim but its trimmed form:
supplying " Alice " stores author "Alice". -/
theorem C5_counterexample :
    applyRedline
      [XmlNode.elem "w:document" []
        [XmlNode.elem "w:ins" [("w:id","1")]
          [XmlNode.elem "w:r" []
            [XmlNode.elem "w:t" [("xml:space","preserve")] [XmlNode.text "x"]]]]]
      "1" ChangeType.insertion RedlineAction.accept (some "newtext") (some " Alice ") "D" =
      Except.ok
        [XmlNode.elem "w:document" []
          [XmlNode.elem "w:ins" [("w:id","2"),("w:author","Alice"),("w:date","D")]
            [XmlNode.elem "w:r" []
              [XmlNode.elem "w:t" [("xml:space","preserve")] [XmlNode.text "newtext"]]]]] ∧
    authorOf (some " Alice ") ≠ " Alice " := by
  have hmax : computeMaxId
      [XmlNode.elem "w:document" []
        [XmlNode.elem "w:ins" [("w:id","1")]
          [XmlNode.elem "w:r" []
            [XmlNode.elem "w:t" [("xml:space","preserve")] [XmlNode.text "x"]]]]] = 1 := by
    simp [computeMaxId, maxStep, forestElemsByTag, nodeAttr, getAttr, List.find?, jsParseInt,
      leadingDigitsVal, digitsVal]
  constructor
  · apply applyRedline_proposal_of_edit
    · decide
    · rw [hmax]
      have hts : toString ((2 : Int)) = "2" := by decide
      have hauth : authorOf (some " Alice ") = "Alice" := by decide
      simp [editFirst, getAttr, List.find?, createInsertionNode, hauth, hts, tagOfType]
  · decide

theorem C5_witness :
    jsTrim "newtext" ≠ "" ∧
    applyRedline
      [XmlNode.elem "w:document" []
        [XmlNode.elem "w:ins" [("w:id","1")]
          [XmlNode.elem "w:r" []
            [XmlNode.elem "w:t" [("xml:space","preserve")] [XmlNode.text "x"]]]]]
      "1" ChangeType.insertion RedlineAction.accept (some "newtext") (some " Alice ") "D" =
      Except.ok
        [XmlNode.elem "w:document" []
          [XmlNode.elem "w:ins" [("w:id","2"),("w:author","Alice"),("w:date","D")]
            [XmlNode.elem "w:r" []
              [XmlNode.elem "w:t" [("xml:space","preserve")] [XmlNode.text "newtext"]]]]] ∧
    ∃ (C : Ctx) (a : List (String × String)) (cs : List XmlNode),
      [XmlNode.elem "w:document" []
        [XmlNode.elem "w:ins" [("w:id","1")]
          [XmlNode.elem "w:r" []
            [XmlNode.elem "w:t" [("xml:space","preserve")] [XmlNode.text "x"]]]]] =
        C.fill [XmlNode.elem (tagOfType ChangeType.insertion) a cs] ∧
      getAttr a "w:id" = some "1" ∧
      C.okBefore (tagOfType ChangeType.insertion) "1" = true ∧
      [XmlNode.elem "w:document" []
        [XmlNode.elem "w:ins" [("w:id","2"),("w:author","Alice"),("w:date","D")]
          [XmlNode.elem "w:r" []
            [XmlNode.elem "w:t" [("xml:space","preserve")] [XmlNode.text "newtext"]]]]] =
        C.fill [XmlNode.elem "w:ins"
          [("w:id", toString (computeMaxId
            [XmlNode.elem "w:document" []
              [XmlNode.elem "w:ins" [("w:id","1")]
                [XmlNode.elem "w:r" []
                  [XmlNode.elem "w:t" [("xml:space","preserve")] [XmlNode.text "x"]]]]] + 1)),
           ("w:author", authorOf (some " Alice ")), ("w:date", "D")]
          [XmlNode.elem "w:r" []
            [XmlNode.elem "w:t" [("xml:space","preserve")] [XmlNode.text "newtext"]]]] := by
  have hp : jsTrim "newtext" ≠ "" := by decide
  have hmax : computeMaxId
      [XmlNode.elem "w:document" []
        [XmlNode.elem "w:ins" [("w:id","1")]
          [XmlNode.elem "w:r" []
            [XmlNode.elem "w:t" [("xml:space","preserve")] [XmlNode.text "x"]]]]] = 1 := by
    simp [computeMaxId, maxStep, forestElemsByTag, nodeAttr, getAttr, List.find?, jsParseInt,
      leadingDigitsVal, digitsVal]
  have h : applyRedline
      [XmlNode.elem "w:document" []
        [XmlNode.elem "w:ins" [("w:id","1")]
          [XmlNode.elem "w:r" []
            [XmlNode.elem "w:t" [("xml:space","preserve")] [XmlNode.text "x"]]]]]
      "1" ChangeType.insertion RedlineAction.accept (some "newtext") (some " Alice ") "D" =
      Except.ok
        [XmlNode.elem "w:document" []
          [XmlNode.elem "w:ins" [("w:id","2"),("w:author","Alice"),("w:date","D")]
            [XmlNode.elem "w:r" []
              [XmlNode.elem "w:t" [("xml:space","preserve")] [XmlNode.text "newtext"]]]]] := by
    apply applyRedline_proposal_of_edit
    · decide
    · rw [hmax]
      have hts : toString ((2 : Int)) = "2" := by decide
      have hauth : authorOf (some " Alice ") = "Alice" := by decide
      simp [editFirst, getAttr, List.find?, createInsertionNode, hauth, hts, tagOfType]
  exact ⟨hp, h, C5_proposal_node_amended _ "1" ChangeType.insertion "newtext" (some " Alice ")
    "D" _ hp h⟩

/-- After unwrapping the unique tag-matching node with id `X` (ids of that
kind being declared, non-empty and not repeated), every remaining node of
that kind carries a declared non-empty id different from `X`. -/
theorem afterUnwrap_no_id (tag X : String) (doc doc' : List XmlNode)
    (hedit : editFirst tag X (fun _ cs => cs) doc = some doc')
    (huniq : (idsByTag tag doc).count (some X) ≤ 1)
    (hnone : Option.none ∉ idsByTag tag doc)
    (hemp : some "" ∉ idsByTag tag doc) :
    ∀ n ∈ forestElemsByTag tag doc', ∃ v, nodeAttr n "w:id" = some v ∧ v ≠ "" ∧ v ≠ X := by
  obtain ⟨C, a, cs, hF, ha, hok, hF'⟩ := editFirst_some_decomp tag X _ doc doc' hedit
  have hids : idsByTag tag [XmlNode.elem tag a cs] = some X :: idsByTag tag cs := by
    simp [idsByTag, forestElemsByTag, nodeAttr, ha]
  have hdoc : idsByTag tag doc = C.idsA tag ++ (some X :: idsByTag tag cs) ++ C.idsB tag := by
    rw [hF, idsByTag_fill, hids]
  have hdoc2 : idsByTag tag doc' = C.idsA tag ++ idsByTag tag cs ++ C.idsB tag := by
    rw [hF', idsByTag_fill]
  have hsub : ∀ x, x ∈ idsByTag tag doc' → x ∈ idsByTag tag doc := by
    intro x hx
    rw [hdoc2] at hx
    rw [hdoc]
    simp only [List.mem_append, List.mem_cons] at hx ⊢
    tauto
  have hcount : (idsByTag tag doc').count (some X) = 0 := by
    rw [hdoc] at huniq
    rw [hdoc2]
    simp only [List.count_append, List.count_cons_self] at huniq ⊢
    omega
  have hnotmem : some X ∉ idsByTag tag doc' := List.count_eq_zero.mp hcount
  intro n hn
  have hmm : nodeAttr n "w:id" ∈ idsByTag tag doc' := by
    unfold idsByTag
    exact List.mem_map_of_mem _ hn
  rcases ho : nodeAttr n "w:id" with _ | v
  · rw [ho] at hmm
    exact absurd (hsub _ hmm) hnone
  · rw [ho] at hmm
    refine ⟨v, rfl, ?_, ?_⟩
    · intro he
      subst he
      exact absurd (hsub _ hmm) hemp
    · intro he
      subst he
      exact absurd hmm hnotmem

theorem no_ins_change_with_id (X : String) (doc' : List XmlNode) (rand : Nat → String)
    (h : ∀ n ∈ forestElemsByTag "w:ins" doc',
      ∃ v, nodeAttr n "w:id" = some v ∧ v ≠ "" ∧ v ≠ X) :
    ((extractChangesDoc doc' rand).all
      (fun c => !(c.type == ChangeType.insertion && c.id == X))) = true := by
  rw [List.all_eq_true]
  intro c hc
  simp only [extractChangesDoc] at hc
  rcases List.mem_append.mp hc with h1 | h2
  · obtain ⟨j, n, chain, sec, par, hmem, hceq⟩ :=
      extractLoop_mem true rand (collectDoc "w:ins" doc') 0 0 c h1
    have hn : n ∈ forestElemsByTag "w:ins" doc' := by
      rw [← collectDoc_map_fst "w:ins" doc']
      exact List.mem_map_of_mem Prod.fst hmem
    obtain ⟨v, hv, hv1, hv2⟩ := h n hn
    subst hceq
    simp only [changeOf, if_true]
    rw [jsAttrOr_of_present n "w:id" _ v hv hv1]
    simp [hv2]
  · obtain ⟨j, n, chain, sec, par, hmem, hceq⟩ :=
      extractLoop_mem false rand (collectDoc "w:del" doc') 0
        (extractLoop true rand (collectDoc "w:ins" doc') 0 0).2 c h2
    subst hceq
    simp [changeOf]
    exact Or.inl rfl

theorem no_del_change_with_id (Y : String) (doc' : List XmlNode) (rand : Nat → String)
    (h : ∀ n ∈ forestElemsByTag "w:del" doc',
      ∃ v, nodeAttr n "w:id" = some v ∧ v ≠ "" ∧ v ≠ Y) :
    ((extractChangesDoc doc' rand).all
      (fun c => !(c.type == ChangeType.deletion && c.id == Y))) = true := by
  rw [List.all_eq_true]
  intro c hc
  simp only [extractChangesDoc] at hc
  rcases List.mem_append.mp hc with h1 | h2
  · obtain ⟨j, n, chain, sec, par, hmem, hceq⟩ :=
      extractLoop_mem true rand (collectDoc "w:ins" doc') 0 0 c h1
    subst hceq
    simp [changeOf]
    exact Or.inl rfl
  · obtain ⟨j, n, chain, sec, par, hmem, hceq⟩ :=
      extractLoop_mem false rand (collectDoc "w:del" doc') 0
        (extractLoop true rand (collectDoc "w:ins" doc') 0 0).2 c h2
    have hn : n ∈ forestElemsByTag "w:del" doc' := by
      rw [← collectDoc_map_fst "w:del" doc']
      exact List.mem_map_of_mem Prod.fst hmem
    obtain ⟨v, hv, hv1, hv2⟩ := h n hn
    subst hceq
    simp only [changeOf, if_false]
    rw [jsAttrOr_of_present n "w:id" _ v hv hv1]
    simp [hv2]

/-- C7 (amended): under the load-time invariant that every node of the
targeted kind declares a non-empty `w:id` unique within that kind,
accepting the insertion with id `X` and re-extracting yields no
insertion-kind change with id `X`, and rejecting the deletion with id `Y`
yields no deletion-kind change with id `Y` while splicing the wrapped
content back at the wrapper's position (a deletion node may legitimately
share its raw id with an insertion node, so the id can still appear on a
change of the other kind). -/
theorem C7_within_kind_amended (docA docA' docB docB' : List XmlNode) (X Y : String)
    (rand : Nat → String)
    (hA : handleAcceptInsertion X docA = Except.ok docA')
    (hAu : (idsByTag "w:ins" docA).count (some X) ≤ 1)
    (hAn : Option.none ∉ idsByTag "w:ins" docA)
    (hAe : some "" ∉ idsByTag "w:ins" docA)
    (hB : handleRejectDeletion Y docB = Except.ok docB')
    (hBu : (idsByTag "w:del" docB).count (some Y) ≤ 1)
    (hBn : Option.none ∉ idsByTag "w:del" docB)
    (hBe : some "" ∉ idsByTag "w:del" docB) :
    ((extractChangesDoc docA' rand).all
      (fun c => !(c.type == ChangeType.insertion && c.id == X))) = true ∧
    ((extractChangesDoc docB' rand).all
      (fun c => !(c.type == ChangeType.deletion && c.id == Y))) = true ∧
    (∃ (C : Ctx) (a : List (String × String)) (cs : List XmlNode),
      docB = C.fill [XmlNode.elem "w:del" a cs] ∧ docB' = C.fill cs) := by
  refine ⟨?_, ?_, ?_⟩
  · exact no_ins_change_with_id X docA' rand
      (afterUnwrap_no_id "w:ins" X docA docA'
        (handleAcceptInsertion_ok X docA docA' hA) hAu hAn hAe)
  · exact no_del_change_with_id Y docB' rand
      (afterUnwrap_no_id "w:del" Y docB docB'
        (handleRejectDeletion_ok Y docB docB' hB) hBu hBn hBe)
  · obtain ⟨C, a, cs, hF, ha, hok, hF'⟩ :=
      editFirst_some_decomp "w:del" Y (fun _ cs => cs) docB docB'
        (handleRejectDeletion_ok Y docB docB' hB)
    exact ⟨C, a, cs, hF, hF'⟩

/-- C7: contrary to the claim, accepting the insertion with id "1" does
not make the id disappear from the re-extracted change list when a
deletion node legitimately carries the same raw id (ids are only unique
within a kind): the list still contains id "1", as a deletion. -/
theorem C7_counterexample :
    handleAcceptInsertion "1"
      [XmlNode.elem "w:document" []
        [XmlNode.elem "w:ins" [("w:id","1")]
          [XmlNode.elem "w:r" []
            [XmlNode.elem "w:t" [("xml:space","preserve")] [XmlNode.text "a"]]],
         XmlNode.elem "w:del" [("w:id","1")]
          [XmlNode.elem "w:r" []
            [XmlNode.elem "w:delText" [("xml:space","preserve")] [XmlNode.text "b"]]]]] =
      Except.ok
        [XmlNode.elem "w:document" []
          [XmlNode.elem "w:r" []
            [XmlNode.elem "w:t" [("xml:space","preserve")] [XmlNode.text "a"]],
           XmlNode.elem "w:del" [("w:id","1")]
            [XmlNode.elem "w:r" []
              [XmlNode.elem "w:delText" [("xml:space","preserve")] [XmlNode.text "b"]]]]] ∧
    ((extractChangesDoc
        [XmlNode.elem "w:document" []
          [XmlNode.elem "w:r" []
            [XmlNode.elem "w:t" [("xml:space","preserve")] [XmlNode.text "a"]],
           XmlNode.elem "w:del" [("w:id","1")]
            [XmlNode.elem "w:r" []
              [XmlNode.elem "w:delText" [("xml:space","preserve")] [XmlNode.text "b"]]]]]
        (fun _ => "x")).map (fun c => c.id)) = ["1"] := by
  constructor
  · apply handleAcceptInsertion_of_edit
    simp [editFirst, getAttr, List.find?]
  · simp [extractChangesDoc, extractLoop, collectDoc, collectChain, forestElemsByTag,
      getTextFromNode, delTextOf, concatLeafTexts, leafText, textContent, textContentF,
      elemsByTagIn, nodeAttr, getAttr, List.find?, usesRand, sectionScan, findSectionInfo,
      paraIdOf, sectIdOf, hasHeadingDesc, nodeTagIs, headBeforeDash, changeOf, jsAttrOr,
      jsOrDefault, jsTrim]

theorem C7_witness :
    (handleAcceptInsertion "5"
      [XmlNode.elem "w:document" []
        [XmlNode.elem "w:ins" [("w:id","5")]
          [XmlNode.elem "w:r" []
            [XmlNode.elem "w:t" [("xml:space","preserve")] [XmlNode.text "h"]]]]] =
      Except.ok
        [XmlNode.elem "w:document" []
          [XmlNode.elem "w:r" []
            [XmlNode.elem "w:t" [("xml:space","preserve")] [XmlNode.text "h"]]]] ∧
     (idsByTag "w:ins"
      [XmlNode.elem "w:document" []
        [XmlNode.elem "w:ins" [("w:id","5")]
          [XmlNode.elem "w:r" []
            [XmlNode.elem "w:t" [("xml:space","preserve")] [XmlNode.text "h"]]]]]).count
        (some "5") ≤ 1 ∧
     handleRejectDeletion "6"
      [XmlNode.elem "w:document" []
        [XmlNode.elem "w:del" [("w:id","6")]
          [XmlNode.elem "w:r" []
            [XmlNode.elem "w:delText" [("xml:space","preserve")] [XmlNode.text "g"]]]]] =
      Except.ok
        [XmlNode.elem "w:document" []
          [XmlNode.elem "w:r" []
            [XmlNode.elem "w:delText" [("xml:space","preserve")] [XmlNode.text "g"]]]]) ∧
    (((extractChangesDoc
        [XmlNode.elem "w:document" []
          [XmlNode.elem "w:r" []
            [XmlNode.elem "w:t" [("xml:space","preserve")] [XmlNode.text "h"]]]]
        (fun _ => "x")).all
      (fun c => !(c.type == ChangeType.insertion && c.id == "5"))) = true ∧
    ((extractChangesDoc
        [XmlNode.elem "w:document" []
          [XmlNode.elem "w:r" []
            [XmlNode.elem "w:delText" [("xml:space","preserve")] [XmlNode.text "g"]]]]
        (fun _ => "x")).all
      (fun c => !(c.type == ChangeType.deletion && c.id == "6"))) = true ∧
    (∃ (C : Ctx) (a : List (String × String)) (cs : List XmlNode),
      [XmlNode.elem "w:document" []
        [XmlNode.elem "w:del" [("w:id","6")]
          [XmlNode.elem "w:r" []
            [XmlNode.elem "w:delText" [("xml:space","preserve")] [XmlNode.text "g"]]]]] =
        C.fill [XmlNode.elem "w:del" a cs] ∧
      [XmlNode.elem "w:document" []
        [XmlNode.elem "w:r" []
          [XmlNode.elem "w:delText" [("xml:space","preserve")] [XmlNode.text "g"]]]] =
        C.fill cs)) := by
  have hidsA : idsByTag "w:ins"
      [XmlNode.elem "w:document" []
        [XmlNode.elem "w:ins" [("w:id","5")]
          [XmlNode.elem "w:r" []
            [XmlNode.elem "w:t" [("xml:space","preserve")] [XmlNode.text "h"]]]]] =
      [some "5"] := by
    simp [idsByTag, forestElemsByTag, nodeAttr, getAttr, List.find?]
  have hidsB : idsByTag "w:del"
      [XmlNode.elem "w:document" []
        [XmlNode.elem "w:del" [("w:id","6")]
          [XmlNode.elem "w:r" []
            [XmlNode.elem "w:delText" [("xml:space","preserve")] [XmlNode.text "g"]]]]] =
      [some "6"] := by
    simp [idsByTag, forestElemsByTag, nodeAttr, getAttr, List.find?]
  have hA : handleAcceptInsertion "5"
      [XmlNode.elem "w:document" []
        [XmlNode.elem "w:ins" [("w:id","5")]
          [XmlNode.elem "w:r" []
            [XmlNode.elem "w:t" [("xml:space","preserve")] [XmlNode.text "h"]]]]] =
      Except.ok
        [XmlNode.elem "w:document" []
          [XmlNode.elem "w:r" []
            [XmlNode.elem "w:t" [("xml:space","preserve")] [XmlNode.text "h"]]]] := by
    apply handleAcceptInsertion_of_edit
    simp [editFirst, getAttr, List.find?]
  have hB : handleRejectDeletion "6"
      [XmlNode.elem "w:document" []
        [XmlNode.elem "w:del" [("w:id","6")]
          [XmlNode.elem "w:r" []
            [XmlNode.elem "w:delText" [("xml:space","preserve")] [XmlNode.text "g"]]]]] =
      Except.ok
        [XmlNode.elem "w:document" []
          [XmlNode.elem "w:r" []
            [XmlNode.elem "w:delText" [("xml:space","preserve")] [XmlNode.text "g"]]]] := by
    apply handleRejectDeletion_of_edit
    simp [editFirst, getAttr, List.find?]
  have hAu : (idsByTag "w:ins"
      [XmlNode.elem "w:document" []
        [XmlNode.elem "w:ins" [("w:id","5")]
          [XmlNode.elem "w:r" []
            [XmlNode.elem "w:t" [("xml:space","preserve")] [XmlNode.text "h"]]]]]).count
        (some "5") ≤ 1 := by
    rw [hidsA]
    decide
  have hAn : Option.none ∉ idsByTag "w:ins"
      [XmlNode.elem "w:document" []
        [XmlNode.elem "w:ins" [("w:id","5")]
          [XmlNode.elem "w:r" []
            [XmlNode.elem "w:t" [("xml:space","preserve")] [XmlNode.text "h"]]]]] := by
    rw [hidsA]
    decide
  have hAe : some "" ∉ idsByTag "w:ins"
      [XmlNode.elem "w:document" []
        [XmlNode.elem "w:ins" [("w:id","5")]
          [XmlNode.elem "w:r" []
            [XmlNode.elem "w:t" [("xml:space","preserve")] [XmlNode.text "h"]]]]] := by
    rw [hidsA]
    decide
  have hBu : (idsByTag "w:del"
      [XmlNode.elem "w:document" []
        [XmlNode.elem "w:del" [("w:id","6")]
          [XmlNode.elem "w:r" []
            [XmlNode.elem "w:delText" [("xml:space","preserve")] [XmlNode.text "g"]]]]]).count
        (some "6") ≤ 1 := by
    rw [hidsB]
    decide
  have hBn : Option.none ∉ idsByTag "w:del"
      [XmlNode.elem "w:document" []
        [XmlNode.elem "w:del" [("w:id","6")]
          [XmlNode.elem "w:r" []
            [XmlNode.elem "w:delText" [("xml:space","preserve")] [XmlNode.text "g"]]]]] := by
    rw [hidsB]
    decide
  have hBe : some "" ∉ idsByTag "w:del"
      [XmlNode.elem "w:document" []
        [XmlNode.elem "w:del" [("w:id","6")]
          [XmlNode.elem "w:r" []
            [XmlNode.elem "w:delText" [("xml:space","preserve")] [XmlNode.text "g"]]]]] := by
    rw [hidsB]
    decide
  exact ⟨⟨hA, hAu, hB⟩,
    C7_within_kind_amended _ _ _ _ "5" "6" (fun _ => "x") hA hAu hAn hAe hB hBu hBn hBe⟩
